import Mathlib

/-!
# Verification of the DeepPrint template renderer

Shallow embedding of the DeepPrint rendering core
(`src-tauri/src/renderer.rs`, `src-tauri/src/deep_print_schema.rs`) and
proofs about the claims of the natural-language specification.

Modelling conventions:
* `f64` values are modelled as `ℚ` (exact rationals).  The renderer's
  floating-point arithmetic on the inputs appearing in the claims involves
  only small decimal fractions for which `f64` arithmetic is exact, and the
  sign/zero tests (`w < 0.0`, `w == 0.0`) behave identically on `ℚ`
  (note `-0.0 == 0.0` and `¬(-0.0 < 0.0)` in `f64`, matching `-0 = 0` in `ℚ`).
  Non-finite `f64` values (NaN/inf) are outside the model and documented
  where relevant.
* JSON numbers are modelled as integers; `serde_json`'s `Number::to_string`
  on integers is ordinary decimal notation, matching `Int`'s `toString`.
* The skia text-layout backend is abstracted by a measurement oracle
  `MeasureFn` (text, font size, layout width ↦ paragraph height), and the
  `qrcode` crate by a `QrOracle`; both are external libraries, not code of
  this repository.  Everything the renderer does with their results is
  translated from the source.
* Drawing to the skia canvas is modelled as an emitted list of `DrawCall`s.
-/

namespace DeepPrint

/-- JSON values (`serde_json::Value`), with numbers restricted to integers. -/
inductive Json where
  | null
  | bool (b : Bool)
  | num (n : Int)
  | str (s : String)
  | arr (elems : List Json)
  | obj (fields : List (String × Json))

/-- `serde_json::Value::get` with a string key: object member lookup,
`None` on any non-object. -/
def Json.get : Json → String → Option Json
  | .obj fields, key => fields.lookup key
  | _, _ => none

/-- `Value::as_array`. -/
def Json.as_array : Json → Option (List Json)
  | .arr xs => some xs
  | _ => none

namespace Interpolator

/-- `Interpolator::get_value_from_obj`: looks the key up directly in the
value (`data.get(key)`) and stringifies scalars; everything else is `""`.
Note the key is used as a single lookup key — the function does not split
dotted paths. -/
def get_value_from_obj (data : Json) (key : String) : String :=
  match data.get key with
  | some (.str s) => s
  | some (.num n) => toString n
  | some (.bool b) => if b then "true" else "false"
  | _ => ""

/-- `Interpolator::get_value_by_path`. -/
def get_value_by_path (data : Json) (path : String) : Option String :=
  let s := get_value_from_obj data path
  if s = "" then none else some s

/-- Whitespace class of the `regex` crate's `\s` (ASCII part). -/
def isWs (c : Char) : Bool :=
  c = ' ' ∨ c = '\t' ∨ c = '\n' ∨ c = '\r' ∨ c = '\x0b' ∨ c = '\x0c'

/-- Character class `[a-zA-Z0-9_.]` of the interpolation regex. -/
def isIdentChar (c : Char) : Bool :=
  c.isAlphanum ∨ c = '_' ∨ c = '.'

/-- Try to match the regex `\x7b\x7b\s*([a-zA-Z0-9_.]+)\s*\x7d\x7d` at the
head of the character list; on success return the captured path and the
remainder after the match.  The character classes of the pattern are
pairwise disjoint, so greedy scanning coincides with the regex semantics. -/
def matchToken : List Char → Option (String × List Char)
  | '\x7b' :: '\x7b' :: cs =>
      let cs1 := cs.dropWhile isWs
      let ident := cs1.takeWhile isIdentChar
      let cs2 := cs1.dropWhile isIdentChar
      if ident.isEmpty then none
      else
        match cs2.dropWhile isWs with
        | '\x7d' :: '\x7d' :: rest => some (String.mk ident, rest)
        | _ => none
  | _ => none

/-- Scanner realising `Regex::replace_all` for the interpolation pattern:
successive leftmost matches are replaced by the looked-up value
(`unwrap_or_default`, i.e. `""` on a missing path).  `fuel` bounds the
recursion; it is always called with the length of the remaining input,
which strictly decreases. -/
def renderChars (data : Json) : Nat → List Char → List Char
  | 0, cs => cs
  | fuel + 1, cs =>
      match cs with
      | [] => []
      | c :: cs' =>
        match matchToken cs with
        | some (path, rest) =>
            ((get_value_by_path data path).getD "").data ++ renderChars data fuel rest
        | none => c :: renderChars data fuel cs'

/-- `Interpolator::render`: replace every `\x7b\x7bpath\x7d\x7d` token. -/
def render (template : String) (data : Json) : String :=
  String.mk (renderChars data template.length template.data)

/-- Characters trimmed by `get_array_by_path` (`'\x7b'`, `'\x7d'`, `' '`). -/
def isBraceOrSpace (c : Char) : Bool :=
  c = '\x7b' ∨ c = '\x7d' ∨ c = ' '

/-- `str::trim_matches` for the brace/space class (strips both ends). -/
def trimBraces (s : String) : String :=
  String.mk (((s.data.dropWhile isBraceOrSpace).reverse.dropWhile isBraceOrSpace).reverse)

/-- `Interpolator::get_array_by_path`: strip braces/spaces, split on `'.'`,
walk the object tree step by step, and return the terminal array. -/
def get_array_by_path (data : Json) (raw_path : String) : Option (List Json) :=
  let path := trimBraces raw_path
  let parts := path.splitOn "."
  let current := parts.foldlM (fun cur part => cur.get part) data
  current.bind Json.as_array

end Interpolator

/-! ## Schema (`deep_print_schema.rs`) -/

/-- `GlobalStyles`. -/
structure GlobalStyles where
  font_family : Option String
  font_size : Option ℚ
  font_color : Option String
deriving DecidableEq

/-- `FontWeight` (untagged `String`-or-`u16`). -/
inductive FontWeight where
  | string (s : String)
  | number (n : Nat)
deriving DecidableEq

/-- `TextProps`. -/
structure TextProps where
  content : String
  font_family : Option String := none
  font_size : Option ℚ := none
  font_weight : Option FontWeight := none
  font_color : Option String := none
  line_height : Option ℚ := none
  text_align : Option String := none
  vertical_align : Option String := none
  text_decoration : Option String := none
  auto_shrink : Option Nat := none
  line_break : Option Nat := none
  auto_height : Option Bool := none
deriving DecidableEq

/-- `TableColumnWidth` (untagged `f64`-or-`String`). -/
inductive TableColumnWidth where
  | Fixed (w : ℚ)
  | Percentage (s : String)
deriving DecidableEq

/-- `TableColumn`. -/
structure TableColumn where
  title : String
  field : String
  width : Option TableColumnWidth := none
  text_align : Option String := none
deriving DecidableEq

/-- `TableProps`. -/
structure TableProps where
  data : String
  columns : List TableColumn
  show_head : Option Nat := none
  cell_padding : Option ℚ := none
  border_width : Option ℚ := none
  border_color : Option String := none
  auto_height : Option Bool := none
deriving DecidableEq

/-- `ImageProps`. -/
structure ImageProps where
  src : String
  object_fit : Option String := none
deriving DecidableEq

/-- `BarcodeProps`. -/
structure BarcodeProps where
  value : String
  format : String
  display_value : Option Nat := none
deriving DecidableEq

/-- `QrcodeProps`. -/
structure QrcodeProps where
  value : String
  correction_level : Option String := none
  size : Option ℚ := none
deriving DecidableEq

/-- `LineProps`. -/
structure LineProps where
  stroke_width : Option ℚ := none
  stroke_color : Option String := none
  dash_array : Option (List ℚ) := none
deriving DecidableEq

/-- `RectProps`. -/
structure RectProps where
  stroke_width : Option ℚ := none
  stroke_color : Option String := none
  fill_color : Option String := none
  border_radius : Option ℚ := none
  dash_array : Option (List ℚ) := none
deriving DecidableEq

/-- `EllipseProps`. -/
structure EllipseProps where
  stroke_width : Option ℚ := none
  stroke_color : Option String := none
  fill_color : Option String := none
  dash_array : Option (List ℚ) := none
deriving DecidableEq

/-- `ElementData` (tag = `type`). -/
inductive ElementData where
  | text (p : TextProps)
  | table (p : TableProps)
  | image (p : ImageProps)
  | barcode (p : BarcodeProps)
  | qrcode (p : QrcodeProps)
  | line (p : LineProps)
  | rect (p : RectProps)
  | ellipse (p : EllipseProps)
deriving DecidableEq

/-- `Element` (common box plus flattened typed body). -/
structure Element where
  id : String
  x : ℚ
  y : ℚ
  w : ℚ
  h : ℚ
  linked_to : Option String := none
  data : ElementData
deriving DecidableEq

/-- `Canvas`. -/
structure Canvas where
  width : ℚ
  height : ℚ
  orientation : Option Nat := none
  styles : Option GlobalStyles := none
  elements : List Element
deriving DecidableEq

/-- `Meta`. -/
structure Meta where
  version : String
  name : String
deriving DecidableEq

/-- `DeepPrintTemplate`. -/
structure DeepPrintTemplate where
  meta : Meta
  data_schema : String
  assets : Option (List (String × String)) := none
  canvas : Canvas
deriving DecidableEq

/-! ## Renderer utilities (`renderer.rs`) -/

/-- RGB colour (`skia_safe::Color` as used by the renderer). -/
structure Color where
  r : Nat
  g : Nat
  b : Nat
deriving DecidableEq

/-- `Color::BLACK`. -/
def Color.black : Color := ⟨0, 0, 0⟩

/-- Hexadecimal digit value (`u8::from_str_radix` digit handling). -/
def hexDigit? (c : Char) : Option Nat :=
  if '0' ≤ c ∧ c ≤ '9' then some (c.toNat - '0'.toNat)
  else if 'a' ≤ c ∧ c ≤ 'f' then some (c.toNat - 'a'.toNat + 10)
  else if 'A' ≤ c ∧ c ≤ 'F' then some (c.toNat - 'A'.toNat + 10)
  else none

/-- `u8::from_str_radix(two hex chars, 16)` (as `Option`). -/
def hexByte? (c1 c2 : Char) : Option Nat :=
  match hexDigit? c1, hexDigit? c2 with
  | some a, some b => some (a * 16 + b)
  | _, _ => none

/-- `parse_color`: `#RRGGBB` with each component `unwrap_or(0)`; any other
shape (ASCII length ≠ 7 or missing `#`) is black. -/
def parse_color (hex : String) : Color :=
  match hex.data with
  | ['#', r1, r2, g1, g2, b1, b2] =>
      ⟨(hexByte? r1 r2).getD 0, (hexByte? g1 g2).getD 0, (hexByte? b1 b2).getD 0⟩
  | _ => Color.black

/-- Paint style (`skia_safe::PaintStyle`, the two used variants). -/
inductive PaintStyle where
  | fill
  | stroke
deriving DecidableEq

/-- Paint state observable through the emitted draw calls. -/
structure Paint where
  style : PaintStyle
  color : Color
  stroke_width : ℚ
  anti_alias : Bool
  dash : Option (List ℚ)
deriving DecidableEq

/-- `Paint::default()`: black fill, stroke width 0, no anti-alias, no dash. -/
def Paint.defaultPaint : Paint :=
  ⟨.fill, Color.black, 0, false, none⟩

/-- One call on the skia canvas / paragraph backend.  A `paragraph` call
records the laid-out text, font size, colour, resolved alignment, the
width given to `Paragraph::layout`, and the paint origin. -/
inductive DrawCall where
  | rect (x y w h : ℚ) (paint : Paint)
  | line (x1 y1 x2 y2 : ℚ) (paint : Paint)
  | oval (x y w h : ℚ) (paint : Paint)
  | paragraph (text : String) (fontSize : ℚ) (color : Color)
      (align : Option String) (layoutWidth : ℚ) (x y : ℚ)
deriving DecidableEq

/-- Text-layout oracle abstracting the skia paragraph backend:
`measure text fontSize layoutWidth` is `Paragraph::height()` after
`Paragraph::layout(layoutWidth)`. -/
def MeasureFn : Type := String → ℚ → ℚ → ℚ

/-- `match align.as_str() \x7b center/right/other \x7d` mapping used when the
renderer sets a paragraph alignment. -/
def mapAlign (a : String) : String :=
  if a = "center" then "center" else if a = "right" then "right" else "left"

/-! ### Decimal parsing (`str::parse::<f64>` on finite decimal inputs) -/

/-- Value of a digit list (most significant first). -/
def digitsVal (l : List Char) : Nat :=
  l.foldl (fun a c => a * 10 + (c.toNat - '0'.toNat)) 0

/-- Optional exponent suffix `([eE][+-]?digits)?`; `none` on trailing junk. -/
def parseExp : List Char → Option Int
  | [] => some 0
  | c :: cs =>
      if c = 'e' ∨ c = 'E' then
        let (sgn, cs1) : Int × List Char :=
          match cs with
          | '-' :: cs' => (-1, cs')
          | '+' :: cs' => (1, cs')
          | cs' => (1, cs')
        let ds := cs1.takeWhile Char.isDigit
        let rest := cs1.dropWhile Char.isDigit
        if ds.isEmpty ∨ ¬ rest.isEmpty then none
        else some (sgn * digitsVal ds)
      else none

/-- Unsigned decimal significand `digits | digits. | digits.digits | .digits`
followed by an optional exponent. -/
def parseDec : List Char → Option ℚ
  | cs =>
      let ip := cs.takeWhile Char.isDigit
      let rest1 := cs.dropWhile Char.isDigit
      match rest1 with
      | '.' :: rest2 =>
          let fp := rest2.takeWhile Char.isDigit
          let rest3 := rest2.dropWhile Char.isDigit
          if ip.isEmpty ∧ fp.isEmpty then none
          else
            (parseExp rest3).map (fun e =>
              ((digitsVal ip : ℚ) + (digitsVal fp : ℚ) / (10 : ℚ) ^ fp.length) * (10 : ℚ) ^ e)
      | _ =>
          if ip.isEmpty then none
          else (parseExp rest1).map (fun e => (digitsVal ip : ℚ) * (10 : ℚ) ^ e)

/-- `str::parse::<f64>` restricted to finite decimal notation (the
non-finite spellings `inf`/`NaN` have no `ℚ` counterpart and are outside
the model). -/
def parseF64? (s : String) : Option ℚ :=
  match s.data with
  | '-' :: cs => (parseDec cs).map (fun q => -q)
  | '+' :: cs => parseDec cs
  | cs => parseDec cs

/-- `str::trim_end_matches('%')`. -/
def trimEndPercent (s : String) : String :=
  String.mk ((s.data.reverse.dropWhile (fun c => c = '%')).reverse)

/-- `s.trim_end_matches('%').parse::<f64>().unwrap_or(0.0)`. -/
def percentVal (s : String) : ℚ :=
  (parseF64? (trimEndPercent s)).getD 0

/-! ### Table column widths (`draw_table`, first and second pass) -/

/-- First pass of `draw_table`'s width loop: per-column sentinel values
(`Fixed` as-is, percentages negated as a marker, absent width as `0.0`)
together with the accumulated `fixed_used`. -/
def tableFirstPass (cols : List TableColumn) : List ℚ × ℚ :=
  cols.foldl
    (fun acc col =>
      match col.width with
      | some (.Fixed w) => (acc.1 ++ [w], acc.2 + w)
      | some (.Percentage s) => (acc.1 ++ [-(percentVal s)], acc.2)
      | none => (acc.1 ++ [0], acc.2))
    ([], 0)

/-- Column width resolution of `draw_table`: `remaining = max(base.w −
fixed_used, 0)`; negative markers become `remaining * |w| / 100`; zero
markers become `remaining / auto_cols_count` when autos exist. -/
def resolve_col_widths (cols : List TableColumn) (total_width : ℚ) : List ℚ :=
  let fp := tableFirstPass cols
  let remaining := max (total_width - fp.2) 0
  let auto_cols_count := (fp.1.filter (fun w => w = 0)).length
  fp.1.map (fun w =>
    if w < 0 then remaining * (abs w / 100)
    else if w = 0 ∧ auto_cols_count > 0 then remaining / (auto_cols_count : ℚ)
    else w)

/-! ### Element renderers -/

/-- `draw_text`.  Returns the measured height and the emitted draw calls;
the skia paragraph is abstracted by `measure`. -/
def draw_text (measure : MeasureFn) (base : Element) (props : TextProps)
    (y : ℚ) (data : Json) (gs : Option GlobalStyles) :
    Except String (ℚ × List DrawCall) :=
  let content := Interpolator.render props.content data
  if content = "" ∧ props.auto_height.getD true then .ok (0, [])
  else
    let font_size := (props.font_size.orElse (fun _ => gs.bind (·.font_size))).getD 12
    let color_hex := (props.font_color.orElse (fun _ => gs.bind (·.font_color))).getD "#000000"
    let color := parse_color color_hex
    let align := props.text_align.map mapAlign
    let text_height := measure content font_size base.w
    let draw_y :=
      if ¬ props.auto_height.getD true ∧ base.h > text_height then
        match props.vertical_align with
        | some "middle" => y + (base.h - text_height) / 2
        | some "bottom" => y + (base.h - text_height)
        | _ => y
      else y
    .ok (if props.auto_height.getD true then text_height else base.h,
         [DrawCall.paragraph content font_size color align base.w base.x draw_y])

/-- `measure_simple_text` (table cells use a fixed 10pt style). -/
def measure_simple_text (measure : MeasureFn) (text : String) (width : ℚ) : ℚ :=
  measure text 10 width

/-- `draw_cell_text`: lay the cell text out at the padded width and paint
it vertically centred in the cell rectangle. -/
def draw_cell_text (measure : MeasureFn) (text : String)
    (rx ry rw rh : ℚ) (padding : ℚ) (align : Option String) : List DrawCall :=
  let avail_w := max (rw - padding * 2) 0
  let text_h := measure text 10 avail_w
  let py := ry + (rh - text_h) / 2
  [DrawCall.paragraph text 10 Color.black (align.map mapAlign) avail_w (rx + padding) py]

/-- One table row (shared shape of the header row and the data rows):
pre-measure every cell at its full column width, take the maximum plus
vertical padding as the row height, then draw each cell's border (only if
the border paint has positive stroke width) and text, advancing an x
cursor.  Returns the row height and the emitted calls. -/
def table_row (measure : MeasureFn) (x0 y0 padding : ℚ) (border_paint : Paint)
    (cells : List (String × Option String)) (widths : List ℚ) : ℚ × List DrawCall :=
  let row_h :=
    ((cells.zip widths).map (fun cw => measure_simple_text measure cw.1.1 cw.2)).foldl max 0
      + padding * 2
  let fin := (cells.zip widths).foldl
    (fun (acc : ℚ × List DrawCall) cw =>
      let x_cursor := acc.1
      let w := cw.2
      let borderCalls :=
        if border_paint.stroke_width > 0 then [DrawCall.rect x_cursor y0 w row_h border_paint]
        else []
      (x_cursor + w,
       acc.2 ++ borderCalls ++ draw_cell_text measure cw.1.1 x_cursor y0 w row_h padding cw.1.2))
    (x0, [])
  (row_h, fin.2)

/-- `draw_table`: resolve the data rows and column widths, then draw the
header row (when `show_head`, default 1) followed by one row per data
element; the measured height is the total advance of the y cursor. -/
def draw_table (measure : MeasureFn) (base : Element) (props : TableProps)
    (start_y : ℚ) (data : Json) : Except String (ℚ × List DrawCall) :=
  let border_paint : Paint :=
    { Paint.defaultPaint with
        style := .stroke,
        stroke_width := props.border_width.getD (283/100),
        color := parse_color (props.border_color.getD "#000000") }
  let rows_data := (Interpolator.get_array_by_path data props.data).getD []
  let cell_padding := props.cell_padding.getD 5
  let col_widths := resolve_col_widths props.columns base.w
  let headRows : List (List (String × Option String)) :=
    if props.show_head.getD 1 = 1 then [props.columns.map (fun c => (c.title, c.text_align))]
    else []
  let dataRows : List (List (String × Option String)) :=
    rows_data.map (fun row =>
      props.columns.map (fun c => (Interpolator.get_value_from_obj row c.field, c.text_align)))
  let fin := (headRows ++ dataRows).foldl
    (fun (acc : ℚ × List DrawCall) cells =>
      let r := table_row measure base.x acc.1 cell_padding border_paint cells col_widths
      (acc.1 + r.1, acc.2 ++ r.2))
    (start_y, [])
  .ok (fin.1 - start_y, fin.2)

/-- `draw_line`. -/
def draw_line (base : Element) (props : LineProps) (y : ℚ) :
    Except String (ℚ × List DrawCall) :=
  let p : Paint :=
    { Paint.defaultPaint with
        style := .stroke,
        stroke_width := props.stroke_width.getD (283/100),
        color := parse_color (props.stroke_color.getD "#000000"),
        dash := props.dash_array }
  .ok (base.h, [DrawCall.line base.x y (base.x + base.w) (y + base.h) p])

/-- `draw_rect`: optional fill (non-empty `fill_color`), then stroke when
the stroke width is positive. -/
def draw_rect (base : Element) (props : RectProps) (y : ℚ) :
    Except String (ℚ × List DrawCall) :=
  let fillCalls :=
    match props.fill_color with
    | some fill =>
        if fill ≠ "" then
          [DrawCall.rect base.x y base.w base.h
            { Paint.defaultPaint with style := .fill, color := parse_color fill }]
        else []
    | none => []
  let stroke_w := props.stroke_width.getD (283/100)
  let strokeCalls :=
    if stroke_w > 0 then
      [DrawCall.rect base.x y base.w base.h
        { Paint.defaultPaint with
            style := .stroke,
            stroke_width := stroke_w,
            color := parse_color (props.stroke_color.getD "#000000"),
            dash := props.dash_array }]
    else []
  .ok (base.h, fillCalls ++ strokeCalls)

/-- `draw_ellipse`. -/
def draw_ellipse (base : Element) (props : EllipseProps) (y : ℚ) :
    Except String (ℚ × List DrawCall) :=
  let p : Paint :=
    { Paint.defaultPaint with
        style := .stroke,
        stroke_width := props.stroke_width.getD (283/100),
        color := parse_color (props.stroke_color.getD "#000000"),
        dash := props.dash_array }
  .ok (base.h, [DrawCall.oval base.x y base.w base.h p])

/-- QR error-correction level (`qrcode::EcLevel`). -/
inductive EcLevel where
  | L
  | M
  | Q
  | H
deriving DecidableEq

/-- Level selection in `draw_qrcode` (`unwrap_or("M")`, unknown → M). -/
def levelOf (props : QrcodeProps) : EcLevel :=
  match props.correction_level.getD "M" with
  | "L" => .L
  | "Q" => .Q
  | "H" => .H
  | _ => .M

/-- Encoded QR symbol: side length in modules and the flattened module
list (`true` = dark), as exposed by `QrCode::width`/`to_colors`. -/
structure QrSymbol where
  width : Nat
  colors : List Bool
deriving DecidableEq

/-- Oracle abstracting `QrCode::with_error_correction_level` of the
external `qrcode` crate (which fails e.g. when the data exceeds the
symbol capacity). -/
def QrOracle : Type := String → EcLevel → Except String QrSymbol

/-- `draw_qrcode`: empty interpolated value → no output, measured height
`base.h`; an encoder failure is wrapped as `"QR Error: …"` and returned as
an error (the `?` operator in the source propagates it); otherwise one
filled rectangle per dark module. -/
def draw_qrcode (qr : QrOracle) (base : Element) (props : QrcodeProps)
    (y : ℚ) (data : Json) : Except String (ℚ × List DrawCall) :=
  let content := Interpolator.render props.value data
  if content = "" then .ok (base.h, [])
  else
    match qr content (levelOf props) with
    | .error e => .error ("QR Error: " ++ e)
    | .ok code =>
        let modules_count := code.width
        if modules_count = 0 then .ok (base.h, [])
        else
          let render_size := props.size.getD (min base.w base.h)
          let module_size := render_size / (modules_count : ℚ)
          let p : Paint := { Paint.defaultPaint with style := .fill, color := Color.black }
          let draws := (code.colors.enum.filter (fun ic => ic.2)).map (fun ic =>
            let row := ic.1 / modules_count
            let col := ic.1 % modules_count
            DrawCall.rect (base.x + (col : ℚ) * module_size) (y + (row : ℚ) * module_size)
              module_size module_size p)
          .ok (base.h, draws)

/-- `draw_barcode` (placeholder): stroked box plus a centred caption. -/
def draw_barcode (measure : MeasureFn) (base : Element) (props : BarcodeProps)
    (y : ℚ) (data : Json) : Except String (ℚ × List DrawCall) :=
  let content := Interpolator.render props.value data
  let p : Paint := { Paint.defaultPaint with style := .stroke, color := Color.black }
  let text := "[Barcode: " ++ content ++ "]"
  let para_h := measure text 10 base.w
  .ok (base.h,
    [DrawCall.rect base.x y base.w base.h p,
     DrawCall.paragraph text 10 Color.black none base.w base.x (y + (base.h - para_h) / 2)])

/-- `draw_image_placeholder`: light-grey fill and two red diagonals. -/
def draw_image_placeholder (base : Element) (_props : ImageProps) (y : ℚ) :
    Except String (ℚ × List DrawCall) :=
  let grey : Paint := { Paint.defaultPaint with style := .fill, color := ⟨211, 211, 211⟩ }
  let red : Paint :=
    { Paint.defaultPaint with style := .stroke, color := ⟨255, 0, 0⟩, stroke_width := 1 }
  .ok (base.h,
    [DrawCall.rect base.x y base.w base.h grey,
     DrawCall.line base.x y (base.x + base.w) (y + base.h) red,
     DrawCall.line (base.x + base.w) y base.x (y + base.h) red])

/-! ### Layout graph and render driver -/

/-- Layout cache content lookup (`layout_cache.get`). -/
def lookupCache (cache : List (String × ℚ × ℚ)) (id : String) : Option (ℚ × ℚ) :=
  cache.lookup id

/-- `calculate_y`: anchored elements sit at the cached bottom of their
target plus their own `y`; an absent target (or no `linkedTo`) means
absolute positioning at `element.y`.  Returns `(actual_y, prev_bottom)`
exactly as the source does (the second component is unused by callers). -/
def calculate_y (element : Element) (cache : List (String × ℚ × ℚ)) : ℚ × ℚ :=
  match element.linked_to with
  | some target_id =>
      match lookupCache cache target_id with
      | some th => (th.1 + th.2 + element.y, th.1 + th.2)
      | none => (element.y, 0)
  | none => (element.y, 0)

/-- The `HashMap` built by `topological_sort` from element ids
(`collect` keeps the last element for a duplicated id). -/
def elemMap (elems : List Element) (id : String) : Option Element :=
  elems.reverse.find? (fun e => e.id = id)

/-- State of the depth-first sort: emitted order, permanent marks,
temporary (grey) marks. -/
structure SortState where
  result : List Element
  visited : List String
  temp_mark : List String
deriving DecidableEq

/-- The recursive `visit` of `topological_sort`.  `fuel` bounds the
recursion depth; every call consumes one unit and each recursive step
moves a fresh element id into `temp_mark`, so depth is at most the number
of elements plus one and the initial fuel `elems.length + 1` (proved
sufficient below) makes the embedding total.  Note that an id without an
element (`elemMap … = none`) is left in `temp_mark` — exactly as in the
source, where `temp_mark.remove` sits inside the `if let`. -/
def visit (elems : List Element) : Nat → String → SortState → Except String SortState
  | 0, _, _ => .error "fuel exhausted"
  | fuel + 1, id, st =>
      if id ∈ st.visited then .ok st
      else if id ∈ st.temp_mark then .error ("Circular dependency: " ++ id)
      else
        let st1 : SortState := { st with temp_mark := id :: st.temp_mark }
        match elemMap elems id with
        | none => .ok st1
        | some e =>
            let after :=
              match e.linked_to with
              | some target_id => visit elems fuel target_id st1
              | none => .ok st1
            match after with
            | .error msg => .error msg
            | .ok st2 =>
                .ok { result := st2.result ++ [e],
                      visited := id :: st2.visited,
                      temp_mark := st2.temp_mark.erase id }

/-- The `for` loop of `topological_sort`: start a DFS from every
not-yet-visited element, in declaration order, propagating errors. -/
def sortLoop (elems : List Element) : List Element → SortState → Except String SortState
  | [], st => .ok st
  | e :: rest, st =>
      match (if e.id ∈ st.visited then Except.ok st else visit elems (elems.length + 1) e.id st) with
      | .error msg => .error msg
      | .ok st1 => sortLoop elems rest st1

/-- `topological_sort`. -/
def topological_sort (elems : List Element) : Except String (List Element) :=
  (sortLoop elems elems ⟨[], [], []⟩).map (·.result)

/-- Mutable render state: the layout cache and the draw calls emitted so
far on the canvas. -/
structure RState where
  cache : List (String × ℚ × ℚ)
  draws : List DrawCall
deriving DecidableEq

/-- `render_element`: resolve the y position, dispatch on the element
type, then insert `(actual_y, measured_height)` into the layout cache. -/
def render_element (measure : MeasureFn) (qr : QrOracle) (data : Json)
    (gs : Option GlobalStyles) (e : Element) (st : RState) : Except String RState :=
  let actual_y := (calculate_y e st.cache).1
  let drawn : Except String (ℚ × List DrawCall) :=
    match e.data with
    | .text p => draw_text measure e p actual_y data gs
    | .table p => draw_table measure e p actual_y data
    | .line p => draw_line e p actual_y
    | .rect p => draw_rect e p actual_y
    | .ellipse p => draw_ellipse e p actual_y
    | .image p => draw_image_placeholder e p actual_y
    | .barcode p => draw_barcode measure e p actual_y data
    | .qrcode p => draw_qrcode qr e p actual_y data
  match drawn with
  | .error msg => .error msg
  | .ok hd =>
      .ok { cache := (e.id, actual_y, hd.1) :: st.cache, draws := st.draws ++ hd.2 }

/-- The per-element loop of `render`: stop at the first error, keeping
the draw calls already on the canvas. -/
def renderElems (measure : MeasureFn) (qr : QrOracle) (data : Json)
    (gs : Option GlobalStyles) : List Element → RState → RState × Option String
  | [], st => (st, none)
  | e :: rest, st =>
      match render_element measure qr data gs e st with
      | .ok st1 => renderElems measure qr data gs rest st1
      | .error msg => (st, some msg)

/-- `DeepPrintRenderer::render`: topologically sort the canvas elements
and render them in order.  The outcome is the sequence of draw calls that
reached the canvas together with the error, if any. -/
def render (measure : MeasureFn) (qr : QrOracle) (template : DeepPrintTemplate)
    (data : Json) : List DrawCall × Option String :=
  match topological_sort template.canvas.elements with
  | .error msg => ([], some msg)
  | .ok sorted =>
      let fin := renderElems measure qr data template.canvas.styles sorted ⟨[], []⟩
      (fin.1.draws, fin.2)

/-! ## Deserialisation (the `serde` derives on the schema types)

The wire format is camelCase; the element body is internally tagged by
`type` with the common box fields flattened alongside.  Parsing is
per-field and per-element: the derived deserialisers perform no
cross-element validation.  Untagged unions try their variants in
declaration order (`FontWeight`: string first; `TableColumnWidth`: fixed
number first). -/

/-- Object payload of a JSON value. -/
def Json.objFields : Json → Except String (List (String × Json))
  | .obj fields => .ok fields
  | _ => .error "expected object"

/-- Deserialise a `String` field value. -/
def jStr : Json → Except String String
  | .str s => .ok s
  | _ => .error "expected string"

/-- Deserialise an `f64` field value. -/
def jNum : Json → Except String ℚ
  | .num n => .ok (n : ℚ)
  | _ => .error "expected number"

/-- Deserialise an unsigned integer bounded by `bound` (`u8`, `u16`). -/
def jUInt (bound : Int) : Json → Except String Nat
  | .num n => if 0 ≤ n ∧ n < bound then .ok n.toNat else .error "integer out of range"
  | _ => .error "expected integer"

/-- Deserialise a `bool` field value. -/
def jBool : Json → Except String Bool
  | .bool b => .ok b
  | _ => .error "expected bool"

/-- Deserialise a `Vec<f64>` field value. -/
def jNumList : Json → Except String (List ℚ)
  | .arr xs => xs.mapM jNum
  | _ => .error "expected array"

/-- Required field. -/
def reqField (fields : List (String × Json)) (key : String)
    (p : Json → Except String α) : Except String α :=
  match fields.lookup key with
  | some j => p j
  | none => .error ("missing field " ++ key)

/-- Optional field (`Option<_>` with `skip_serializing_if`). -/
def optField (fields : List (String × Json)) (key : String)
    (p : Json → Except String α) : Except String (Option α) :=
  match fields.lookup key with
  | some j => (p j).map some
  | none => .ok none

/-- `FontWeight` (untagged): the `String` variant is tried first, then
`Number(u16)`. -/
def parseFontWeight : Json → Except String FontWeight
  | .str s => .ok (.string s)
  | .num n => if 0 ≤ n ∧ n < 65536 then .ok (.number n.toNat) else .error "invalid fontWeight"
  | _ => .error "invalid fontWeight"

/-- `TableColumnWidth` (untagged): `Fixed(f64)` is tried first, then
`Percentage(String)`. -/
def parseColumnWidth : Json → Except String TableColumnWidth
  | .num n => .ok (.Fixed (n : ℚ))
  | .str s => .ok (.Percentage s)
  | _ => .error "invalid column width"

/-- `GlobalStyles` deserialiser. -/
def parseGlobalStyles (j : Json) : Except String GlobalStyles := do
  let fields ← j.objFields
  let font_family ← optField fields "fontFamily" jStr
  let font_size ← optField fields "fontSize" jNum
  let font_color ← optField fields "fontColor" jStr
  .ok ⟨font_family, font_size, font_color⟩

/-- `TextProps` deserialiser (fields of the flattened element object). -/
def parseTextProps (fields : List (String × Json)) : Except String TextProps := do
  let content ← reqField fields "content" jStr
  let font_family ← optField fields "fontFamily" jStr
  let font_size ← optField fields "fontSize" jNum
  let font_weight ← optField fields "fontWeight" parseFontWeight
  let font_color ← optField fields "fontColor" jStr
  let line_height ← optField fields "lineHeight" jNum
  let text_align ← optField fields "textAlign" jStr
  let vertical_align ← optField fields "verticalAlign" jStr
  let text_decoration ← optField fields "textDecoration" jStr
  let auto_shrink ← optField fields "autoShrink" (jUInt 256)
  let line_break ← optField fields "lineBreak" (jUInt 256)
  let auto_height ← optField fields "autoHeight" jBool
  .ok ⟨content, font_family, font_size, font_weight, font_color, line_height,
       text_align, vertical_align, text_decoration, auto_shrink, line_break, auto_height⟩

/-- `TableColumn` deserialiser. -/
def parseTableColumn (j : Json) : Except String TableColumn := do
  let fields ← j.objFields
  let title ← reqField fields "title" jStr
  let field ← reqField fields "field" jStr
  let width ← optField fields "width" parseColumnWidth
  let text_align ← optField fields "textAlign" jStr
  .ok ⟨title, field, width, text_align⟩

/-- `TableProps` deserialiser. -/
def parseTableProps (fields : List (String × Json)) : Except String TableProps := do
  let data ← reqField fields "data" jStr
  let columnsJson ← reqField fields "columns" (fun j =>
    match j with
    | .arr xs => .ok xs
    | _ => .error "expected array")
  let columns ← columnsJson.mapM parseTableColumn
  let show_head ← optField fields "showHead" (jUInt 256)
  let cell_padding ← optField fields "cellPadding" jNum
  let border_width ← optField fields "borderWidth" jNum
  let border_color ← optField fields "borderColor" jStr
  let auto_height ← optField fields "autoHeight" jBool
  .ok ⟨data, columns, show_head, cell_padding, border_width, border_color, auto_height⟩

/-- `ImageProps` deserialiser. -/
def parseImageProps (fields : List (String × Json)) : Except String ImageProps := do
  let src ← reqField fields "src" jStr
  let object_fit ← optField fields "objectFit" jStr
  .ok ⟨src, object_fit⟩

/-- `BarcodeProps` deserialiser. -/
def parseBarcodeProps (fields : List (String × Json)) : Except String BarcodeProps := do
  let value ← reqField fields "value" jStr
  let format ← reqField fields "format" jStr
  let display_value ← optField fields "displayValue" (jUInt 256)
  .ok ⟨value, format, display_value⟩

/-- `QrcodeProps` deserialiser. -/
def parseQrcodeProps (fields : List (String × Json)) : Except String QrcodeProps := do
  let value ← reqField fields "value" jStr
  let correction_level ← optField fields "correctionLevel" jStr
  let size ← optField fields "size" jNum
  .ok ⟨value, correction_level, size⟩

/-- `LineProps` deserialiser. -/
def parseLineProps (fields : List (String × Json)) : Except String LineProps := do
  let stroke_width ← optField fields "strokeWidth" jNum
  let stroke_color ← optField fields "strokeColor" jStr
  let dash_array ← optField fields "dashArray" jNumList
  .ok ⟨stroke_width, stroke_color, dash_array⟩

/-- `RectProps` deserialiser. -/
def parseRectProps (fields : List (String × Json)) : Except String RectProps := do
  let stroke_width ← optField fields "strokeWidth" jNum
  let stroke_color ← optField fields "strokeColor" jStr
  let fill_color ← optField fields "fillColor" jStr
  let border_radius ← optField fields "borderRadius" jNum
  let dash_array ← optField fields "dashArray" jNumList
  .ok ⟨stroke_width, stroke_color, fill_color, border_radius, dash_array⟩

/-- `EllipseProps` deserialiser. -/
def parseEllipseProps (fields : List (String × Json)) : Except String EllipseProps := do
  let stroke_width ← optField fields "strokeWidth" jNum
  let stroke_color ← optField fields "strokeColor" jStr
  let fill_color ← optField fields "fillColor" jStr
  let dash_array ← optField fields "dashArray" jNumList
  .ok ⟨stroke_width, stroke_color, fill_color, dash_array⟩

/-- Tagged `ElementData` dispatch on the `type` discriminator. -/
def parseElementData (fields : List (String × Json)) : Except String ElementData := do
  let tag ← reqField fields "type" jStr
  match tag with
  | "text" => (parseTextProps fields).map .text
  | "table" => (parseTableProps fields).map .table
  | "image" => (parseImageProps fields).map .image
  | "barcode" => (parseBarcodeProps fields).map .barcode
  | "qrcode" => (parseQrcodeProps fields).map .qrcode
  | "line" => (parseLineProps fields).map .line
  | "rect" => (parseRectProps fields).map .rect
  | "ellipse" => (parseEllipseProps fields).map .ellipse
  | _ => .error ("unknown element type " ++ tag)

/-- `Element` deserialiser (common box plus flattened body).  It examines
only its own JSON object: in particular no id-uniqueness information is
available to it. -/
def parseElement (j : Json) : Except String Element := do
  let fields ← j.objFields
  let id ← reqField fields "id" jStr
  let x ← reqField fields "x" jNum
  let y ← reqField fields "y" jNum
  let w ← reqField fields "w" jNum
  let h ← reqField fields "h" jNum
  let linked_to ← optField fields "linkedTo" jStr
  let data ← parseElementData fields
  .ok ⟨id, x, y, w, h, linked_to, data⟩

/-- `Vec<Element>` deserialiser: elementwise, with no cross-element check. -/
def parseElements (js : List Json) : Except String (List Element) :=
  js.mapM parseElement

/-- `Canvas` deserialiser. -/
def parseCanvas (j : Json) : Except String Canvas := do
  let fields ← j.objFields
  let width ← reqField fields "width" jNum
  let height ← reqField fields "height" jNum
  let orientation ← optField fields "orientation" (jUInt 256)
  let styles ← optField fields "styles" parseGlobalStyles
  let elementsJson ← reqField fields "elements" (fun j =>
    match j with
    | .arr xs => .ok xs
    | _ => .error "expected array")
  let elements ← parseElements elementsJson
  .ok ⟨width, height, orientation, styles, elements⟩

/-- `Meta` deserialiser. -/
def parseMeta (j : Json) : Except String Meta := do
  let fields ← j.objFields
  let version ← reqField fields "version" jStr
  let name ← reqField fields "name" jStr
  .ok ⟨version, name⟩

/-- `HashMap<String, String>` deserialiser for `assets`. -/
def parseAssets (j : Json) : Except String (List (String × String)) := do
  let fields ← j.objFields
  fields.mapM (fun kv => (jStr kv.2).map (fun v => (kv.1, v)))

/-- `DeepPrintTemplate` deserialiser (the whole of
`serde_json::from_str::<DeepPrintTemplate>` on already-parsed JSON). -/
def parseTemplate (j : Json) : Except String DeepPrintTemplate := do
  let fields ← j.objFields
  let meta ← reqField fields "meta" parseMeta
  let data_schema ← reqField fields "dataSchema" jStr
  let assets ← optField fields "assets" parseAssets
  let canvas ← reqField fields "canvas" parseCanvas
  .ok ⟨meta, data_schema, assets, canvas⟩

/-! ## Derived graph notions used in the statements -/

/-- The ids borne by the elements of a template. -/
def idsOf (elems : List Element) : List String :=
  elems.map (·.id)

/-- One `linkedTo` hop in the id graph (through the id map the sort
builds; out-degree is at most one). -/
def step (elems : List Element) (i : String) : Option String :=
  (elemMap elems i).bind (·.linked_to)

/-- `k`-fold iteration of `step`. -/
def stepN (elems : List Element) : Nat → String → Option String
  | 0, i => some i
  | k + 1, i => (step elems i).bind (stepN elems k)

/-- `c` lies on a `linkedTo` cycle: following the links some positive
number of times returns to `c`. -/
def OnCycle (elems : List Element) (c : String) : Prop :=
  ∃ k : Nat, stepN elems (k + 1) c = some c

/-- Every `linkedTo` in the template names an existing element. -/
def TargetsExist (elems : List Element) : Prop :=
  ∀ e ∈ elems, ∀ t, e.linked_to = some t → t ∈ idsOf elems

/-- Ids still neither permanently nor temporarily marked; bounds the
remaining recursion depth of `visit`. -/
def freeCnt (elems : List Element) (st : SortState) : Nat :=
  ((idsOf elems).filter (fun i => i ∉ st.visited ∧ i ∉ st.temp_mark)).length

/-- The grey stack is a chain of `linkedTo` hops ending at the id being
visited: the head of `temp_mark` links to `id`, and each deeper entry
links to the one above it. -/
def ChainUp (elems : List Element) : List String → String → Prop
  | [], _ => True
  | a :: rest, id => step elems a = some id ∧ ChainUp elems rest a

/-! ## Specification-side column-width formula (for comparison with the
source's `resolve_col_widths`) -/

/-- Declared fixed width of a column (0 for percentage/auto columns);
`fixed_used` is the sum of these. -/
def colFix (c : TableColumn) : ℚ :=
  match c.width with
  | some (.Fixed w) => w
  | _ => 0

/-- The first-pass sentinel of a column as pushed by `draw_table`. -/
def colMark (c : TableColumn) : ℚ :=
  match c.width with
  | some (.Fixed w) => w
  | some (.Percentage s) => -(percentVal s)
  | none => 0

/-- A column that is sized as an auto column: its width is absent, or its
declared width collapses to the `0.0` sentinel (an explicit fixed width of
0, or a percentage string whose numeric prefix is 0 or fails to parse). -/
def isAutoCol (c : TableColumn) : Bool :=
  match c.width with
  | none => true
  | some (.Fixed w) => w = 0
  | some (.Percentage s) => percentVal s = 0

/-- Modelled from the spec's width-resolution wording (with the auto
formula corrected to what the source computes): fixed widths are taken as
given, percentage columns get `remaining * p / 100` where `remaining =
max(0, base.w − Σ fixed)`, and every auto column gets
`remaining / auto_count`. -/
def resolveColWidthsSpec (cols : List TableColumn) (total_width : ℚ) : List ℚ :=
  let fixed_used := (cols.map colFix).sum
  let remaining := max (total_width - fixed_used) 0
  let auto_count := cols.countP (fun c => isAutoCol c)
  cols.map (fun c =>
    match c.width with
    | some (.Fixed f) =>
        if f = 0 then remaining / (auto_count : ℚ) else f
    | some (.Percentage s) =>
        if percentVal s = 0 then remaining / (auto_count : ℚ)
        else remaining * percentVal s / 100
    | none => remaining / (auto_count : ℚ))

/-! ## Concrete fixtures used by the witnesses and counterexamples -/

/-- A constant paragraph-measurement oracle (every paragraph is 14pt
tall). -/
def constMeasure : MeasureFn := fun _ _ _ => 14

/-- A measurement oracle under which text wraps below 50pt of available
width (two 14pt lines instead of one). -/
def wrapMeasure : MeasureFn := fun _ _ w => if w < 50 then 28 else 14

/-- A QR oracle that always encodes to a fixed 2×2 symbol. -/
def okQr : QrOracle := fun _ _ => .ok ⟨2, [true, false, false, true]⟩

/-- A QR oracle standing in for an encoder failure (e.g. data exceeding
the symbol capacity). -/
def failQr : QrOracle := fun _ _ => .error "data too long"

/-- A simple line element fixture. -/
def mkLine (id : String) (lt : Option String) (y : ℚ) : Element :=
  ⟨id, 0, y, 100, 2, lt, .line {}⟩

/-- Template wrapper around an element list. -/
def tmplOf (elems : List Element) : DeepPrintTemplate :=
  ⟨⟨"6.1", "t"⟩, "", none, ⟨380, 100, none, none, elems⟩⟩

/-- Anchor fixture: `cB` is unlinked at `y = 10`, `cA` is linked to it
with its own `y = 7`. -/
def cB : Element := mkLine "b" none 10

/-- The linked element of the anchor fixture. -/
def cA : Element := mkLine "a" (some "b") 7

/-- Two elements whose `linkedTo` both name the nonexistent id `ghost`. -/
def ghostElems : List Element := [mkLine "A" (some "ghost") 10, mkLine "B" (some "ghost") 20]

/-- A single element whose `linkedTo` names the nonexistent id `ghost`. -/
def ghostOneElems : List Element := [mkLine "A" (some "ghost") 10]

/-- Two ghost references followed by a genuine two-element cycle. -/
def ghostCycleElems : List Element :=
  [mkLine "A" (some "ghost") 10, mkLine "B" (some "ghost") 20,
   mkLine "C" (some "D") 30, mkLine "D" (some "C") 40]

/-- A pure two-element cycle. -/
def pureCycleElems : List Element := [mkLine "C" (some "D") 30, mkLine "D" (some "C") 40]

/-- A qrcode element fixture. -/
def qProps : QrcodeProps := ⟨"hello", none, none⟩

/-- The element carrying `qProps`. -/
def qEl : Element := ⟨"q", 0, 0, 120, 120, none, .qrcode qProps⟩

/-- Text-props fixture whose content would wrap at the element width. -/
def wrapProps (lb : Option Nat) : TextProps :=
  { content := "wrapping text", line_break := lb }

/-- The element box for the wrap fixture (width 40 < the 50pt wrap
threshold of `wrapMeasure`). -/
def wrapEl (lb : Option Nat) : Element :=
  ⟨"t", 5, 0, 40, 30, none, .text (wrapProps lb)⟩

/-- JSON of one line element with id `a`. -/
def lineElemJson : Json :=
  Json.obj [("id", Json.str "a"), ("x", Json.num 0), ("y", Json.num 0),
            ("w", Json.num 10), ("h", Json.num 2), ("type", Json.str "line")]

/-- Template JSON whose canvas contains two elements with the same id. -/
def dupJson : Json := Json.obj [
  ("meta", Json.obj [("version", Json.str "6.1"), ("name", Json.str "t")]),
  ("dataSchema", Json.str ""),
  ("canvas", Json.obj [
    ("width", Json.num 380), ("height", Json.num 100),
    ("elements", Json.arr [lineElemJson, lineElemJson])])]

/-- The parsed form of `lineElemJson`. -/
def lineElemParsed : Element := ⟨"a", 0, 0, 10, 2, none, .line {}⟩

/-- Column fixtures of testable property 7 of the spec:
`[Fixed(50), Percent("50%"), Auto]`. -/
def colsFPA : List TableColumn :=
  [⟨"a", "a", some (.Fixed 50), none⟩,
   ⟨"b", "b", some (.Percentage "50%"), none⟩,
   ⟨"c", "c", none, none⟩]

/-- Column fixtures `[Percent("100%"), Auto]`. -/
def colsPA : List TableColumn :=
  [⟨"a", "a", some (.Percentage "100%"), none⟩,
   ⟨"b", "b", none, none⟩]

/-- Column fixtures with all three zero-sentinel shapes plus one genuine
fixed column: `[Fixed(0), Percent("0%"), Percent("x%"), Fixed(100)]`. -/
def colsZero : List TableColumn :=
  [⟨"a", "a", some (.Fixed 0), none⟩,
   ⟨"b", "b", some (.Percentage "0%"), none⟩,
   ⟨"c", "c", some (.Percentage "x%"), none⟩,
   ⟨"d", "d", some (.Fixed 100), none⟩]

/-- Text props whose content interpolates to the empty string (a missing
path) with `autoHeight` left at its default. -/
def emptyTextProps : TextProps := { content := "\x7b\x7bmissing\x7d\x7d" }

/-- The element carrying `emptyTextProps`, anchored nowhere. -/
def emptyTextEl : Element := ⟨"e", 0, 12, 380, 40, none, .text emptyTextProps⟩

/-- Invariant of the DFS sort state: `visited` is exactly the ids of the
emitted elements, every emitted element is the one the id map yields for
its id, the emitted ids are distinct, and every emitted element whose
`linkedTo` names an existing id has an element with that id emitted
strictly earlier. -/
structure GoodState (elems : List Element) (st : SortState) : Prop where
  visited_iff : ∀ x, x ∈ st.visited ↔ ∃ e ∈ st.result, e.id = x
  result_map : ∀ e ∈ st.result, elemMap elems e.id = some e
  nodup_ids : (st.result.map Element.id).Nodup
  closed : ∀ (j : Nat) (e : Element), st.result[j]? = some e →
    ∀ t, e.linked_to = some t → t ∈ idsOf elems →
    ∃ i, i < j ∧ ∃ et : Element, st.result[i]? = some et ∧ et.id = t

/-! ## Claim C1 — interpolation path lookup -/

/-- C1: the claim states that `Interpolator::render` resolves a dotted
path by traversing object keys step by step.  In the source,
`get_value_from_obj` passes the entire dotted path as a single lookup key
to `Value::get`, so `render("\x7b\x7bx.y\x7d\x7d", …)` returns `""` on nested data
`\x7bx: \x7by: "v"\x7d\x7d` and only a literal top-level key `"x.y"` resolves.
Single-segment paths, scalar stringification and the empty-string
substitution for a missing path behave as claimed. -/
theorem c1_interpolation_flat_lookup :
    Interpolator.render "\x7b\x7bx.y\x7d\x7d" (Json.obj [("x", Json.obj [("y", Json.str "v")])]) = ""
    ∧ Interpolator.render "\x7b\x7bx.y\x7d\x7d" (Json.obj [("x.y", Json.str "v")]) = "v"
    ∧ Interpolator.render "\x7b\x7bname\x7d\x7d" (Json.obj [("name", Json.str "v")]) = "v"
    ∧ Interpolator.render "\x7b\x7b n \x7d\x7d" (Json.obj [("n", Json.num (-5))]) = "-5"
    ∧ Interpolator.render "\x7b\x7bb\x7d\x7d" (Json.obj [("b", Json.bool true)]) = "true"
    ∧ Interpolator.render "\x7b\x7bmissing\x7d\x7d" (Json.obj [("x", Json.str "v")]) = "" :=
  ⟨rfl, rfl, rfl, rfl, rfl, rfl⟩

/-! ## Claim C6 — unknown `linkedTo` target -/

/-- C6: a single element that links to a nonexistent id renders without
error at its absolute `y`, but the source never removes a nonexistent id
from `temp_mark` (the removal sits inside the `if let`), so a second
element referencing the same unknown id makes the sort report a spurious
`Circular dependency: ghost` — even though no element bears that id and
no cycle exists — and the render emits nothing. -/
theorem c6_missing_linked_to_bug :
    render constMeasure okQr (tmplOf ghostOneElems) (Json.obj [])
      = ([DrawCall.line 0 10 100 12
            ⟨.stroke, Color.black, 283/100, false, none⟩], none)
    ∧ topological_sort ghostElems = .error "Circular dependency: ghost"
    ∧ render constMeasure okQr (tmplOf ghostElems) (Json.obj [])
        = ([], some "Circular dependency: ghost")
    ∧ "ghost" ∉ idsOf ghostElems
    ∧ ¬ OnCycle ghostElems "ghost" := by
  refine ⟨by with_unfolding_all rfl, by with_unfolding_all rfl, by with_unfolding_all rfl,
    by decide, ?_⟩
  rintro ⟨k, hk⟩
  rw [show stepN ghostElems (k + 1) "ghost"
        = (step ghostElems "ghost").bind (stepN ghostElems k) from rfl,
      show step ghostElems "ghost" = none from rfl] at hk
  exact Option.noConfusion hk

/-! ## Claim C9 — `lineBreak == 0` single-line layout -/

/-- C9 counterexample: with a measurement oracle under which the content
wraps at the element width (height 28 instead of the single-line 14), the
draw-call sequences for `lineBreak = 0` and `lineBreak = 1` are equal —
the paragraph is laid out at `element.w` (40) in both cases, not on an
unbounded width — contradicting the claim that they differ whenever the
content would wrap. -/
theorem c9_counterexample :
    draw_text wrapMeasure (wrapEl (some 0)) (wrapProps (some 0)) 0 (Json.obj []) none
      = draw_text wrapMeasure (wrapEl (some 1)) (wrapProps (some 1)) 0 (Json.obj []) none
    ∧ draw_text wrapMeasure (wrapEl (some 0)) (wrapProps (some 0)) 0 (Json.obj []) none
      = .ok (28, [DrawCall.paragraph "wrapping text" 12 Color.black none 40 5 0]) :=
  ⟨by with_unfolding_all rfl, by with_unfolding_all rfl⟩

/-- C9 (amended): `lineBreak` is parsed as configuration but never
consulted by `draw_text`: the paragraph is always laid out at width
`element.w`, and the result is identical for any two `lineBreak`
values. -/
theorem c9_linebreak_ignored (measure : MeasureFn) (base : Element) (props : TextProps)
    (y : ℚ) (data : Json) (gs : Option GlobalStyles) (lb lb2 : Option Nat) :
    draw_text measure base { props with line_break := lb } y data gs
      = draw_text measure base { props with line_break := lb2 } y data gs := rfl

/-! ## Claim C5 — QR encode failure -/

/-- C5 counterexample: when the QR encoder fails, `draw_qrcode` does not
return `element.h` with no output — the `?` in the source propagates a
`"QR Error: …"` error, which `render_element` and `render` pass on,
aborting the render. -/
theorem c5_counterexample :
    draw_qrcode failQr qEl qProps 0 (Json.obj []) = .error "QR Error: data too long"
    ∧ render_element constMeasure failQr (Json.obj []) none qEl ⟨[], []⟩
        = .error "QR Error: data too long"
    ∧ render constMeasure failQr (tmplOf [qEl]) (Json.obj [])
        = ([], some "QR Error: data too long") :=
  ⟨by with_unfolding_all rfl, by with_unfolding_all rfl, by with_unfolding_all rfl⟩

/-- C5 (amended): an empty interpolated value yields no output and
measured height `element.h` without error, but an encoder failure on a
non-empty value aborts the element with `"QR Error: …"` (propagated by
the render loop) instead of being silent. -/
theorem c5_qrcode_failure_aborts (qr : QrOracle) (base : Element) (props : QrcodeProps)
    (y : ℚ) (data : Json) :
    (Interpolator.render props.value data = "" →
      draw_qrcode qr base props y data = .ok (base.h, []))
    ∧ (∀ msg, Interpolator.render props.value data ≠ "" →
        qr (Interpolator.render props.value data) (levelOf props) = .error msg →
        draw_qrcode qr base props y data = .error ("QR Error: " ++ msg)) := by
  constructor
  · intro h
    simp only [draw_qrcode, h, if_pos]
  · intro msg hne henc
    simp [draw_qrcode, hne, henc]

/-- C5 witness: the amended theorem applied to the failing oracle at a
concrete qrcode element. -/
theorem c5_witness :
    (Interpolator.render qProps.value (Json.obj []) ≠ ""
      ∧ failQr (Interpolator.render qProps.value (Json.obj [])) (levelOf qProps)
          = .error "data too long")
    ∧ draw_qrcode failQr qEl qProps 5 (Json.obj []) = .error ("QR Error: " ++ "data too long") := by
  have hv : Interpolator.render qProps.value (Json.obj []) = "hello" := rfl
  refine ⟨⟨by rw [hv]; decide, rfl⟩, ?_⟩
  exact (c5_qrcode_failure_aborts failQr qEl qProps 5 (Json.obj [])).2 "data too long"
    (by rw [hv]; decide) rfl

/-! ## Claim C4 — duplicate element ids at parse time -/

/-- C4 counterexample: a template whose canvas contains two elements with
the same id parses successfully (no `SchemaError`), so parsed templates
do not have pairwise distinct element ids. -/
theorem c4_counterexample :
    parseTemplate dupJson
      = .ok ⟨⟨"6.1", "t"⟩, "", none, ⟨380, 100, none, none, [lineElemParsed, lineElemParsed]⟩⟩
    ∧ idsOf [lineElemParsed, lineElemParsed] = ["a", "a"]
    ∧ ¬ (idsOf [lineElemParsed, lineElemParsed]).Nodup :=
  ⟨by with_unfolding_all rfl, rfl, by decide⟩

/-- C4 (amended): deserialisation is element-local and performs no
id-uniqueness validation: duplicating the element array of any parseable
template still parses, and the resulting id list is never duplicate-free
(for a nonempty canvas). -/
theorem c4_no_duplicate_id_validation (js : List Json) (es : List Element)
    (h : parseElements js = .ok es) :
    parseElements (js ++ js) = .ok (es ++ es)
    ∧ (es ≠ [] → ¬ (idsOf (es ++ es)).Nodup) := by
  constructor
  · rw [parseElements, List.mapM_append]
    rw [parseElements] at h
    rw [h]
    rfl
  · intro hne hnd
    rw [idsOf, List.map_append] at hnd
    have hd := List.disjoint_of_nodup_append hnd
    cases es with
    | nil => exact hne rfl
    | cons a t =>
        have hm : a.id ∈ (a :: t).map Element.id :=
          List.mem_map_of_mem Element.id (List.mem_cons_self a t)
        exact hd hm hm

/-- C4 witness: the amended theorem applied to the concrete duplicate
element JSON. -/
theorem c4_witness :
    parseElements [lineElemJson] = .ok [lineElemParsed]
    ∧ parseElements ([lineElemJson] ++ [lineElemJson]) = .ok ([lineElemParsed] ++ [lineElemParsed])
    ∧ ¬ (idsOf ([lineElemParsed] ++ [lineElemParsed])).Nodup := by
  have h : parseElements [lineElemJson] = .ok [lineElemParsed] := by with_unfolding_all rfl
  have h2 := c4_no_duplicate_id_validation [lineElemJson] [lineElemParsed] h
  exact ⟨h, h2.1, h2.2 (by decide)⟩

/-! ## Claim C2 — table column width resolution -/

/-- C2 counterexample: for `[Fixed(50), Percent("50%"), Auto]` at
`base.w = 200` the source resolves `[50, 75, 150]`, not the claimed
`[50, 75, 75]` (the auto column receives `remaining / auto_count`, with
the percentage widths not subtracted); for `[Percent("100%"), Auto]` at
`base.w = 100` it resolves `[100, 100]`, not `[100, 0]`. -/
theorem c2_counterexample :
    resolve_col_widths colsFPA 200 = [50, 75, 150]
    ∧ resolve_col_widths colsFPA 200 ≠ [50, 75, 75]
    ∧ resolve_col_widths colsPA 100 = [100, 100]
    ∧ resolve_col_widths colsPA 100 ≠ [100, 0] := by
  have h1 : resolve_col_widths colsFPA 200 = [50, 75, 150] := by with_unfolding_all rfl
  have h2 : resolve_col_widths colsPA 100 = [100, 100] := by with_unfolding_all rfl
  refine ⟨h1, ?_, h2, ?_⟩
  · rw [h1]; intro hc; norm_num at hc
  · rw [h2]; intro hc; norm_num at hc

/-- The width-marking loop of `draw_table`, with a generalised
accumulator: the sentinel list is `map colMark` and `fixed_used` the sum
of the declared fixed widths. -/
theorem tableFirstPass_foldl (cols : List TableColumn) (init : List ℚ × ℚ) :
    cols.foldl
      (fun acc col =>
        match col.width with
        | some (.Fixed w) => (acc.1 ++ [w], acc.2 + w)
        | some (.Percentage s) => (acc.1 ++ [-(percentVal s)], acc.2)
        | none => (acc.1 ++ [0], acc.2))
      init
    = (init.1 ++ cols.map colMark, init.2 + (cols.map colFix).sum) := by
  induction cols generalizing init with
  | nil => simp
  | cons c rest ih =>
      rw [List.foldl_cons, ih]
      rcases hc : c.width with _ | tw
      · simp [colMark, colFix, hc, add_assoc]
      · rcases tw with w | s <;> simp [colMark, colFix, hc, add_assoc]

/-- `tableFirstPass` in closed form. -/
theorem tableFirstPass_eq (cols : List TableColumn) :
    tableFirstPass cols = (cols.map colMark, (cols.map colFix).sum) := by
  have h := tableFirstPass_foldl cols ([], 0)
  simpa [tableFirstPass] using h

/-- C2 (amended): for nonnegative declared fixed and percentage widths,
`draw_table`'s width resolution computes: fixed widths as given,
percentage columns `remaining * p / 100` with
`remaining = max(0, base.w − Σ fixed)`, and every auto column (width
absent or collapsing to the zero sentinel) `remaining / auto_count` —
the percentage widths are not subtracted before dividing. -/
theorem c2_table_width_resolution (cols : List TableColumn) (w : ℚ)
    (hfix : ∀ c ∈ cols, ∀ f, c.width = some (.Fixed f) → 0 ≤ f)
    (hpct : ∀ c ∈ cols, ∀ s, c.width = some (.Percentage s) → 0 ≤ percentVal s) :
    resolve_col_widths cols w = resolveColWidthsSpec cols w := by
  simp only [resolve_col_widths, resolveColWidthsSpec, tableFirstPass_eq]
  have hcount : ((cols.map colMark).filter (fun x => x = 0)).length
      = cols.countP (fun c => isAutoCol c) := by
    rw [List.filter_map, List.length_map, List.countP_eq_length_filter]
    congr 1
    apply List.filter_congr
    intro c _
    rcases hc : c.width with _ | tw
    · simp [colMark, isAutoCol, hc]
    · rcases tw with f | s <;> simp [colMark, isAutoCol, hc, neg_eq_zero]
  rw [hcount, List.map_map]
  apply List.map_congr_left
  intro c hc
  simp only [Function.comp_apply]
  rcases hw : c.width with _ | tw
  · -- auto column: the sentinel is 0 and this column is counted
    have hpos : 0 < cols.countP (fun c => isAutoCol c) :=
      List.countP_pos_iff.mpr ⟨c, hc, by simp [isAutoCol, hw]⟩
    simp [colMark, hw, hpos, lt_irrefl]
  · rcases tw with f | s
    · have hf := hfix c hc f hw
      rcases eq_or_lt_of_le hf with hf0 | hf0
      · -- Fixed 0: sized as an auto column
        have hpos : 0 < cols.countP (fun c => isAutoCol c) :=
          List.countP_pos_iff.mpr ⟨c, hc, by simp [isAutoCol, hw, hf0.symm]⟩
        simp [colMark, hw, ← hf0, hpos, lt_irrefl]
      · -- positive fixed width is kept
        simp [colMark, hw, not_lt_of_gt hf0, hf0.ne.symm]
    · have hp := hpct c hc s hw
      rcases eq_or_lt_of_le hp with hp0 | hp0
      · -- percentage 0 (or unparseable): sized as an auto column
        have hpos : 0 < cols.countP (fun c => isAutoCol c) :=
          List.countP_pos_iff.mpr ⟨c, hc, by simp [isAutoCol, hw, hp0.symm]⟩
        simp [colMark, hw, ← hp0, hpos, lt_irrefl]
      · -- positive percentage: remaining * p / 100
        have h1 : -(percentVal s) < 0 := neg_lt_zero.mpr hp0
        simp only [colMark, hw, if_pos h1, abs_neg, abs_of_pos hp0, hp0.ne.symm,
          if_neg, mul_div_assoc]
        simp

/-- C2 witness: the amended resolution formula at the two example column
lists of the claim. -/
theorem c2_witness :
    resolve_col_widths colsFPA 200 = resolveColWidthsSpec colsFPA 200
    ∧ resolve_col_widths colsPA 100 = resolveColWidthsSpec colsPA 100 := by
  have h50 : percentVal "50%" = 50 := by with_unfolding_all rfl
  have h100 : percentVal "100%" = 100 := by with_unfolding_all rfl
  constructor
  · refine c2_table_width_resolution colsFPA 200 ?_ ?_
    · intro c hc f hf
      fin_cases hc
      · injection hf with h1; injection h1 with h2; rw [← h2]; norm_num
      · injection hf with h1; exact TableColumnWidth.noConfusion h1
      · exact Option.noConfusion hf
    · intro c hc s hs
      fin_cases hc
      · injection hs with h1; exact TableColumnWidth.noConfusion h1
      · injection hs with h1; injection h1 with h2; rw [← h2, h50]; norm_num
      · exact Option.noConfusion hs
  · refine c2_table_width_resolution colsPA 100 ?_ ?_
    · intro c hc f hf
      fin_cases hc
      · injection hf with h1; exact TableColumnWidth.noConfusion h1
      · exact Option.noConfusion hf
    · intro c hc s hs
      fin_cases hc
      · injection hs with h1; injection h1 with h2; rw [← h2, h100]; norm_num
      · exact Option.noConfusion hs

/-! ## Claim C10 — zero-sentinel widths count as auto columns -/

/-- C10: any column whose declared width maps to the internal `0.0`
sentinel — explicit `Fixed 0`, the percentage `"0%"`, or a percentage
whose numeric prefix fails to parse — is counted in `auto_cols_count` and
resolved to `remaining / auto_cols_count` instead of width 0. -/
theorem c10_zero_sentinel_auto (cols : List TableColumn) (w : ℚ) (i : Nat)
    (c : TableColumn) (hc : cols[i]? = some c)
    (hzero : c.width = some (.Fixed 0)
      ∨ ∃ s, c.width = some (.Percentage s)
          ∧ (parseF64? (trimEndPercent s) = none ∨ parseF64? (trimEndPercent s) = some 0)) :
    0 < ((tableFirstPass cols).1.filter (fun x => x = 0)).length
    ∧ (resolve_col_widths cols w)[i]?
        = some (max (w - (tableFirstPass cols).2) 0
            / ((((tableFirstPass cols).1.filter (fun x => x = 0)).length : ℚ))) := by
  have hmem : c ∈ cols := by
    rw [List.mem_iff_getElem?]; exact ⟨i, hc⟩
  have hmark : colMark c = 0 := by
    rcases hzero with hz | ⟨s, hz, hp⟩
    · simp [colMark, hz]
    · rcases hp with hp | hp <;> simp [colMark, hz, percentVal, hp]
  have hpos : 0 < ((tableFirstPass cols).1.filter (fun x => x = 0)).length := by
    rw [tableFirstPass_eq, ← List.countP_eq_length_filter]
    exact List.countP_pos_iff.mpr ⟨colMark c, List.mem_map_of_mem colMark hmem, by simp [hmark]⟩
  refine ⟨hpos, ?_⟩
  simp only [resolve_col_widths]
  rw [List.getElem?_map]
  have hmi : (tableFirstPass cols).1[i]? = some (colMark c) := by
    rw [tableFirstPass_eq, List.getElem?_map, hc]
    rfl
  rw [hmi]
  simp [hmark, lt_irrefl, hpos]

/-- C10 witness: the sentinel theorem applied at the unparseable-percent
column of `colsZero` (and the fully evaluated resolution for all four
columns). -/
theorem c10_witness :
    (0 < ((tableFirstPass colsZero).1.filter (fun x => x = 0)).length
      ∧ (resolve_col_widths colsZero 400)[2]?
          = some (max (400 - (tableFirstPass colsZero).2) 0
              / ((((tableFirstPass colsZero).1.filter (fun x => x = 0)).length : ℚ))))
    ∧ resolve_col_widths colsZero 400 = [100, 100, 100, 100] := by
  constructor
  · exact c10_zero_sentinel_auto colsZero 400 2 ⟨"c", "c", some (.Percentage "x%"), none⟩
      (by rfl) (.inr ⟨"x%", rfl, .inl (by rfl)⟩)
  · with_unfolding_all rfl

/-! ## Claim C8 — empty auto-height text -/

/-- C8: a text element whose interpolated content is empty with
`autoHeight` true (or absent) draws nothing and measures height 0;
`render_element` caches `(actual_y, 0)` under its id and leaves the
canvas untouched, and an element linked to it lands at the cached `y`
plus 0 plus its own `y`. -/
theorem c8_empty_autoheight_text (measure : MeasureFn) (qr : QrOracle) (base : Element)
    (props : TextProps) (y : ℚ) (data : Json) (gs : Option GlobalStyles)
    (hempty : Interpolator.render props.content data = "")
    (hauto : props.auto_height.getD true = true) :
    draw_text measure base props y data gs = .ok (0, [])
    ∧ (∀ st, base.data = .text props →
        render_element measure qr data gs base st
          = .ok ⟨(base.id, (calculate_y base st.cache).1, 0) :: st.cache, st.draws⟩)
    ∧ (∀ (a : Element) cache yb, a.linked_to = some base.id →
        lookupCache cache base.id = some (yb, 0) →
        (calculate_y a cache).1 = yb + 0 + a.y) := by
  have hdt : ∀ y0 : ℚ, draw_text measure base props y0 data gs = .ok (0, []) := by
    intro y0
    simp [draw_text, hempty, hauto]
  refine ⟨hdt y, ?_, ?_⟩
  · intro st hdata
    simp [render_element, hdata, hdt]
  · intro a cache yb hl hc
    simp [calculate_y, hl, hc]

/-- C8 witness: the empty-content text element fixture measures 0, caches
`(12, 0)`, and stacks a linked element flush below it. -/
theorem c8_witness :
    (Interpolator.render emptyTextProps.content (Json.obj []) = ""
      ∧ emptyTextProps.auto_height.getD true = true)
    ∧ draw_text constMeasure emptyTextEl emptyTextProps 12 (Json.obj []) none = .ok (0, [])
    ∧ (calculate_y (mkLine "n" (some "e") 9) [("e", 12, 0)]).1 = 12 + 0 + 9 := by
  have h := c8_empty_autoheight_text constMeasure okQr emptyTextEl emptyTextProps 12
    (Json.obj []) none (by rfl) (by rfl)
  refine ⟨⟨by rfl, by rfl⟩, h.1, ?_⟩
  exact h.2.2 (mkLine "n" (some "e") 9) [("e", 12, 0)] 12 (by rfl) (by rfl)

/-! ## Properties of the depth-first topological sort -/

/-- An id found in the element map bears that id and belongs to the
template. -/
theorem elemMap_spec {elems : List Element} {id : String} {e : Element}
    (h : elemMap elems id = some e) : e.id = id ∧ e ∈ elems := by
  constructor
  · have := List.find?_some h
    simpa using this
  · have := List.mem_of_find?_eq_some h
    exact List.mem_reverse.mp this

/-- Every id borne by an element is in the element map. -/
theorem elemMap_isSome_of_mem_ids {elems : List Element} {t : String}
    (h : t ∈ idsOf elems) : ∃ e, elemMap elems t = some e := by
  rcases List.mem_map.mp h with ⟨e, he, rfl⟩
  rcases hf : elemMap elems e.id with _ | e'
  · exfalso
    have : ∀ x ∈ elems.reverse, ¬ (x.id = e.id) := by
      intro x hx
      have := List.find?_eq_none.mp hf x hx
      simpa using this
    exact this e (List.mem_reverse.mpr he) rfl
  · exact ⟨e', rfl⟩

/-- With pairwise distinct ids the element map sends each element's id to
the element itself. -/
theorem elemMap_self_of_nodup {elems : List Element}
    (hnd : (idsOf elems).Nodup) {e : Element} (he : e ∈ elems) :
    elemMap elems e.id = some e := by
  rcases elemMap_isSome_of_mem_ids (List.mem_map_of_mem Element.id he) with ⟨e', hf⟩
  rcases elemMap_spec hf with ⟨hid, hmem⟩
  have : e' = e := by
    have hinj : ∀ x ∈ elems, ∀ y ∈ elems, x.id = y.id → x = y := by
      intro x hx y hy hxy
      have := @List.inj_on_of_nodup_map _ _ Element.id elems (by rwa [idsOf] at hnd)
      exact this hx hy hxy
    exact hinj e' hmem e he hid
  rw [hf, this]

/-- `visit` only grows `visited` and appends to `result`. -/
theorem visit_mono {elems : List Element} :
    ∀ (fuel : Nat) (id : String) (st st' : SortState),
      visit elems fuel id st = .ok st' →
      (∀ x ∈ st.visited, x ∈ st'.visited) ∧ ∃ l, st'.result = st.result ++ l := by
  intro fuel
  induction fuel with
  | zero => intro id st st' h; exact absurd h (by simp [visit])
  | succ fuel ih =>
      intro id st st' h
      simp only [visit] at h
      by_cases h1 : id ∈ st.visited
      · rw [if_pos h1] at h
        cases h
        exact ⟨fun x hx => hx, [], by simp⟩
      · rw [if_neg h1] at h
        by_cases h2 : id ∈ st.temp_mark
        · rw [if_pos h2] at h; exact absurd h (by simp)
        · rw [if_neg h2] at h
          rcases hm : elemMap elems id with _ | e
          · simp only [hm] at h
            cases h
            exact ⟨fun x hx => hx, [], by simp⟩
          · simp only [hm] at h
            rcases hl : e.linked_to with _ | t
            · simp only [hl] at h
              cases h
              exact ⟨fun x hx => List.mem_cons_of_mem _ hx, [e], by simp⟩
            · simp only [hl] at h
              rcases hrec : visit elems fuel t { st with temp_mark := id :: st.temp_mark }
                  with msg | st2
              · rw [hrec] at h; exact absurd h (by simp)
              · rw [hrec] at h
                simp only [] at h
                cases h
                obtain ⟨hv, l, hr⟩ := ih t _ _ hrec
                exact ⟨fun x hx => List.mem_cons_of_mem _ (hv x hx), l ++ [e],
                  by simp [hr]⟩

/-- A grey id that is not yet black stays non-black through a successful
`visit` (it would be a cycle error to reach it). -/
theorem visit_temp_not_visited {elems : List Element} :
    ∀ (fuel : Nat) (id : String) (st st' : SortState),
      visit elems fuel id st = .ok st' →
      ∀ x ∈ st.temp_mark, x ∉ st.visited → x ∉ st'.visited := by
  intro fuel
  induction fuel with
  | zero => intro id st st' h; exact absurd h (by simp [visit])
  | succ fuel ih =>
      intro id st st' h x hxt hxv
      simp only [visit] at h
      by_cases h1 : id ∈ st.visited
      · rw [if_pos h1] at h; cases h; exact hxv
      · rw [if_neg h1] at h
        by_cases h2 : id ∈ st.temp_mark
        · rw [if_pos h2] at h; exact absurd h (by simp)
        · rw [if_neg h2] at h
          have hxid : x ≠ id := fun hx => h2 (hx ▸ hxt)
          rcases hm : elemMap elems id with _ | e
          · simp only [hm] at h; cases h; exact hxv
          · simp only [hm] at h
            rcases hl : e.linked_to with _ | t
            · simp only [hl] at h; cases h
              intro hx
              rcases List.mem_cons.mp hx with hx | hx
              · exact hxid hx
              · exact hxv hx
            · simp only [hl] at h
              rcases hrec : visit elems fuel t { st with temp_mark := id :: st.temp_mark }
                  with msg | st2
              · rw [hrec] at h; exact absurd h (by simp)
              · rw [hrec] at h
                simp only [] at h
                cases h
                intro hx
                rcases List.mem_cons.mp hx with hx | hx
                · exact hxid hx
                · exact ih t _ _ hrec x (List.mem_cons_of_mem _ hxt) hxv hx

/-- After a successful `visit` of an id that belongs to the template,
that id is black. -/
theorem visit_target_visited {elems : List Element} :
    ∀ (fuel : Nat) (t : String) (st st' : SortState),
      visit elems fuel t st = .ok st' → t ∈ idsOf elems → t ∈ st'.visited := by
  intro fuel
  cases fuel with
  | zero => intro t st st' h _; exact absurd h (by simp [visit])
  | succ fuel =>
      intro t st st' h ht
      simp only [visit] at h
      by_cases h1 : t ∈ st.visited
      · rw [if_pos h1] at h; cases h; exact h1
      · rw [if_neg h1] at h
        by_cases h2 : t ∈ st.temp_mark
        · rw [if_pos h2] at h; exact absurd h (by simp)
        · rw [if_neg h2] at h
          rcases hm : elemMap elems t with _ | e
          · exfalso
            rcases elemMap_isSome_of_mem_ids ht with ⟨e, he⟩
            rw [hm] at he; exact Option.noConfusion he
          · simp only [hm] at h
            rcases hl : e.linked_to with _ | t2
            · simp only [hl] at h; cases h
              exact List.mem_cons_self _ _
            · simp only [hl] at h
              rcases hrec : visit elems fuel t2 { st with temp_mark := t :: st.temp_mark }
                  with msg | st2
              · rw [hrec] at h; exact absurd h (by simp)
              · rw [hrec] at h
                simp only [] at h
                cases h
                exact List.mem_cons_self _ _

/-- Emitting an element whose id is new and whose dependency (if naming
an existing id) is already black preserves the sort invariant. -/
theorem push_good {elems : List Element} {st2 : SortState} (hg2 : GoodState elems st2)
    {id : String} {e : Element} (hm : elemMap elems id = some e)
    (hnv : id ∉ st2.visited)
    (htv : ∀ t, e.linked_to = some t → t ∈ idsOf elems → t ∈ st2.visited) :
    GoodState elems ⟨st2.result ++ [e], id :: st2.visited, st2.temp_mark.erase id⟩ := by
  obtain ⟨hid, hmem⟩ := elemMap_spec hm
  constructor
  · intro x
    constructor
    · intro hx
      rcases List.mem_cons.mp hx with rfl | hx
      · exact ⟨e, by simp, hid⟩
      · obtain ⟨e', he', hei⟩ := (hg2.visited_iff x).mp hx
        exact ⟨e', List.mem_append_left _ he', hei⟩
    · rintro ⟨e', he', rfl⟩
      rcases List.mem_append.mp he' with he' | he'
      · exact List.mem_cons_of_mem _ ((hg2.visited_iff _).mpr ⟨e', he', rfl⟩)
      · have he2 : e' = e := by simpa using he'
        subst he2
        rw [hid]
        exact List.mem_cons_self _ _
  · intro e' he'
    rcases List.mem_append.mp he' with he' | he'
    · exact hg2.result_map e' he'
    · have he2 : e' = e := by simpa using he'
      subst he2
      rw [hid]
      exact hm
  · rw [List.map_append]
    refine List.Nodup.append hg2.nodup_ids (by simp) ?_
    intro x hx1 hx2
    have hx2' : x = e.id := by simpa using hx2
    subst hx2'
    rcases List.mem_map.mp hx1 with ⟨e', he', hei⟩
    exact hnv (hid ▸ (hg2.visited_iff _).mpr ⟨e', he', hei⟩)
  · intro j e' hj t ht htids
    rcases Nat.lt_trichotomy j st2.result.length with hlt | heq | hgt
    · rw [List.getElem?_append_left hlt] at hj
      obtain ⟨i, hi, et, het, hetid⟩ := hg2.closed j e' hj t ht htids
      exact ⟨i, hi, et, by rw [List.getElem?_append_left (lt_trans hi hlt)]; exact het, hetid⟩
    · subst heq
      rw [List.getElem?_concat_length] at hj
      have he2 : e' = e := by simpa using hj.symm
      subst he2
      have hvis := htv t ht htids
      obtain ⟨et, hetmem, hetid⟩ := (hg2.visited_iff t).mp hvis
      obtain ⟨i, hi⟩ := List.mem_iff_getElem?.mp hetmem
      have hilt : i < st2.result.length := (List.getElem?_eq_some.mp hi).1
      exact ⟨i, hilt, et, by rw [List.getElem?_append_left hilt]; exact hi, hetid⟩
    · exfalso
      have : (st2.result ++ [e])[j]? = none := by
        apply List.getElem?_eq_none
        simpa using hgt
      rw [this] at hj
      exact Option.noConfusion hj

/-- `visit` preserves the sort invariant. -/
theorem visit_good {elems : List Element} :
    ∀ (fuel : Nat) (id : String) (st st' : SortState),
      GoodState elems st → visit elems fuel id st = .ok st' → GoodState elems st' := by
  intro fuel
  induction fuel with
  | zero => intro id st st' _ h; exact absurd h (by simp [visit])
  | succ fuel ih =>
      intro id st st' hg h
      simp only [visit] at h
      by_cases h1 : id ∈ st.visited
      · rw [if_pos h1] at h; cases h; exact hg
      · rw [if_neg h1] at h
        by_cases h2 : id ∈ st.temp_mark
        · rw [if_pos h2] at h; exact absurd h (by simp)
        · rw [if_neg h2] at h
          rcases hm : elemMap elems id with _ | e
          · simp only [hm] at h; cases h
            exact ⟨hg.visited_iff, hg.result_map, hg.nodup_ids, hg.closed⟩
          · simp only [hm] at h
            rcases hl : e.linked_to with _ | t
            · simp only [hl] at h; cases h
              exact @push_good elems { st with temp_mark := id :: st.temp_mark }
                ⟨hg.visited_iff, hg.result_map, hg.nodup_ids, hg.closed⟩ id e hm h1
                (fun t' ht' _ => absurd (hl ▸ ht') (by simp))
            · simp only [hl] at h
              rcases hrec : visit elems fuel t { st with temp_mark := id :: st.temp_mark }
                  with msg | st2
              · rw [hrec] at h; exact absurd h (by simp)
              · rw [hrec] at h
                simp only [] at h
                cases h
                have hg2 : GoodState elems st2 :=
                  ih t { st with temp_mark := id :: st.temp_mark } st2
                    ⟨hg.visited_iff, hg.result_map, hg.nodup_ids, hg.closed⟩ hrec
                have hnv2 : id ∉ st2.visited :=
                  visit_temp_not_visited fuel t _ _ hrec id (List.mem_cons_self _ _) h1
                refine push_good hg2 hm hnv2 ?_
                intro t' ht' htids
                have ht2 : t' = t := by
                  have h3 := hl ▸ ht'
                  have h4 : t = t' := by simpa using h3
                  exact h4.symm
                subst ht2
                exact visit_target_visited fuel t' _ _ hrec htids

/-- The sort's top-level loop preserves the invariant. -/
theorem sortLoop_good {elems : List Element} :
    ∀ (l : List Element) (st st' : SortState),
      GoodState elems st → sortLoop elems l st = .ok st' → GoodState elems st' := by
  intro l
  induction l with
  | nil => intro st st' hg h; simp only [sortLoop] at h; cases h; exact hg
  | cons e rest ih =>
      intro st st' hg h
      simp only [sortLoop] at h
      by_cases h1 : e.id ∈ st.visited
      · rw [if_pos h1] at h
        simp only [] at h
        exact ih _ _ hg h
      · rw [if_neg h1] at h
        rcases hv : visit elems (elems.length + 1) e.id st with m | st1
        · rw [hv] at h; exact absurd h (by simp)
        · rw [hv] at h
          simp only [] at h
          exact ih _ _ (visit_good (elems.length + 1) e.id st st1 hg hv) h

/-- The top-level loop only grows `visited`. -/
theorem sortLoop_visited_mono {elems : List Element} :
    ∀ (l : List Element) (st st' : SortState),
      sortLoop elems l st = .ok st' → ∀ x ∈ st.visited, x ∈ st'.visited := by
  intro l
  induction l with
  | nil => intro st st' h; simp only [sortLoop] at h; cases h; exact fun x hx => hx
  | cons e rest ih =>
      intro st st' h
      simp only [sortLoop] at h
      by_cases h1 : e.id ∈ st.visited
      · rw [if_pos h1] at h
        simp only [] at h
        exact ih _ _ h
      · rw [if_neg h1] at h
        rcases hv : visit elems (elems.length + 1) e.id st with m | st1
        · rw [hv] at h; exact absurd h (by simp)
        · rw [hv] at h
          simp only [] at h
          intro x hx
          exact ih _ _ h x ((visit_mono (elems.length + 1) e.id st st1 hv).1 x hx)

/-- After a successful loop every processed element's id is black. -/
theorem sortLoop_all_visited {elems : List Element} :
    ∀ (l : List Element) (st st' : SortState),
      sortLoop elems l st = .ok st' →
      ∀ e ∈ l, e.id ∈ idsOf elems → e.id ∈ st'.visited := by
  intro l
  induction l with
  | nil => intro st st' _ e he; exact absurd he (List.not_mem_nil e)
  | cons e0 rest ih =>
      intro st st' h e he hei
      simp only [sortLoop] at h
      by_cases h1 : e0.id ∈ st.visited
      · rw [if_pos h1] at h
        simp only [] at h
        rcases List.mem_cons.mp he with rfl | he
        · exact sortLoop_visited_mono rest st st' h e.id h1
        · exact ih _ _ h e he hei
      · rw [if_neg h1] at h
        rcases hv : visit elems (elems.length + 1) e0.id st with m | st1
        · rw [hv] at h; exact absurd h (by simp)
        · rw [hv] at h
          simp only [] at h
          rcases List.mem_cons.mp he with rfl | he
          · exact sortLoop_visited_mono rest st1 st' h e.id
              (visit_target_visited (elems.length + 1) e.id st st1 hv hei)
          · exact ih _ _ h e he hei

/-- A successful `topological_sort` comes from a successful loop whose
final state satisfies the invariant and has every element id black. -/
theorem sort_ok_state {elems : List Element} {es : List Element}
    (h : topological_sort elems = .ok es) :
    ∃ stf, sortLoop elems elems ⟨[], [], []⟩ = .ok stf ∧ stf.result = es
      ∧ GoodState elems stf ∧ ∀ e ∈ elems, e.id ∈ stf.visited := by
  unfold topological_sort at h
  rcases hs : sortLoop elems elems ⟨[], [], []⟩ with m | stf
  · rw [hs] at h; exact absurd h (by simp [Except.map])
  · rw [hs] at h
    have hres : stf.result = es := by
      simpa [Except.map] using h
    have hginit : GoodState elems ⟨[], [], []⟩ := by
      refine ⟨?_, ?_, ?_, ?_⟩ <;> simp
    refine ⟨stf, rfl, hres, sortLoop_good elems ⟨[], [], []⟩ stf hginit hs, ?_⟩
    intro e he
    exact sortLoop_all_visited elems ⟨[], [], []⟩ stf hs e he (List.mem_map_of_mem _ he)

/-- With distinct ids, every template element occurs in the sorted
output. -/
theorem sort_ok_mem {elems es : List Element} (hnd : (idsOf elems).Nodup)
    (h : topological_sort elems = .ok es) : ∀ e ∈ elems, e ∈ es := by
  obtain ⟨stf, _, hres, hg, hvis⟩ := sort_ok_state h
  intro e he
  obtain ⟨e', he', hei⟩ := (hg.visited_iff e.id).mp (hvis e he)
  have hmap := hg.result_map e' he'
  rw [hei, elemMap_self_of_nodup hnd he] at hmap
  have he2 : e = e' := by simpa using hmap
  subst he2
  exact hres ▸ he'

/-- The sorted output places every dependency on an existing id strictly
earlier. -/
theorem sort_ok_closed {elems es : List Element}
    (h : topological_sort elems = .ok es) :
    ∀ (j : Nat) (e : Element), es[j]? = some e →
    ∀ t, e.linked_to = some t → t ∈ idsOf elems →
    ∃ i, i < j ∧ ∃ et : Element, es[i]? = some et ∧ et.id = t := by
  obtain ⟨stf, _, hres, hg, _⟩ := sort_ok_state h
  exact hres ▸ hg.closed

/-- The sorted output has pairwise distinct ids. -/
theorem sort_ok_nodup {elems es : List Element}
    (h : topological_sort elems = .ok es) : (es.map Element.id).Nodup := by
  obtain ⟨stf, _, hres, hg, _⟩ := sort_ok_state h
  exact hres ▸ hg.nodup_ids

/-- Every element of the sorted output is the id-map image of its id. -/
theorem sort_ok_map {elems es : List Element}
    (h : topological_sort elems = .ok es) :
    ∀ e ∈ es, elemMap elems e.id = some e := by
  obtain ⟨stf, _, hres, hg, _⟩ := sort_ok_state h
  exact hres ▸ hg.result_map

/-- One `linkedTo` hop strictly decreases the position in the sorted
output. -/
theorem sort_step_lt {elems es : List Element} (_hnd : (idsOf elems).Nodup)
    (h : topological_sort elems = .ok es)
    {u v : String} {eu ev : Element} {iu iv : Nat}
    (hmu : elemMap elems u = some eu) (hiu : es[iu]? = some eu)
    (hstep : step elems u = some v)
    (hmv : elemMap elems v = some ev) (hiv : es[iv]? = some ev) :
    iv < iu := by
  have hlink : eu.linked_to = some v := by
    unfold step at hstep
    rw [hmu] at hstep
    simpa using hstep
  have hvids : v ∈ idsOf elems := by
    obtain ⟨hid, hmem⟩ := elemMap_spec hmv
    exact hid ▸ List.mem_map_of_mem _ hmem
  obtain ⟨i, hi, et, het, hetid⟩ := sort_ok_closed h iu eu hiu v hlink hvids
  have hmt := sort_ok_map h et (List.mem_iff_getElem?.mpr ⟨i, het⟩)
  rw [hetid, hmv] at hmt
  have hev : ev = et := by simpa using hmt
  subst hev
  have hnd_es : es.Nodup := List.Nodup.of_map Element.id (sort_ok_nodup h)
  have hlen : i < es.length := (List.getElem?_eq_some.mp het).1
  have hieq : i = iv := List.getElem?_inj hlen hnd_es (by rw [het, hiv])
  omega

/-- `m` hops from `u` to `v` put `v` at least `m` positions earlier. -/
theorem sort_stepN_le {elems es : List Element} (hnd : (idsOf elems).Nodup)
    (h : topological_sort elems = .ok es) :
    ∀ (m : Nat) (u v : String) (eu ev : Element) (iu iv : Nat),
      elemMap elems u = some eu → es[iu]? = some eu →
      stepN elems m u = some v →
      elemMap elems v = some ev → es[iv]? = some ev →
      iv + m ≤ iu := by
  intro m
  induction m with
  | zero =>
      intro u v eu ev iu iv hmu hiu hs hmv hiv
      have huv : u = v := by simpa [stepN] using hs
      subst huv
      rw [hmu] at hmv
      have hee : eu = ev := by simpa using hmv
      subst hee
      have hnd_es : es.Nodup := List.Nodup.of_map Element.id (sort_ok_nodup h)
      have hlen : iu < es.length := (List.getElem?_eq_some.mp hiu).1
      have : iu = iv := List.getElem?_inj hlen hnd_es (by rw [hiu, hiv])
      omega
  | succ m ih =>
      intro u v eu ev iu iv hmu hiu hs hmv hiv
      have hs' : (step elems u).bind (stepN elems m) = some v := by simpa [stepN] using hs
      rcases hw : step elems u with _ | w
      · rw [hw] at hs'; exact absurd hs' (by simp)
      · rw [hw] at hs'
        simp only [Option.some_bind] at hs'
        have hmw : ∃ ew, elemMap elems w = some ew := by
          cases m with
          | zero =>
              have hwv : w = v := by simpa [stepN] using hs'
              exact hwv ▸ ⟨ev, hmv⟩
          | succ m2 =>
              have hs2 : (step elems w).bind (stepN elems m2) = some v := by
                simpa [stepN] using hs'
              rcases hww : step elems w with _ | w2
              · rw [hww] at hs2; exact absurd hs2 (by simp)
              · unfold step at hww
                rcases hm2 : elemMap elems w with _ | ew
                · rw [hm2] at hww; exact absurd hww (by simp)
                · exact ⟨ew, rfl⟩
        obtain ⟨ew, hmw⟩ := hmw
        have hewmem : ew ∈ es := sort_ok_mem hnd h ew (elemMap_spec hmw).2
        obtain ⟨iw, hiw⟩ := List.mem_iff_getElem?.mp hewmem
        have h1 : iw < iu := sort_step_lt hnd h hmu hiu hw hmw hiw
        have h2 : iv + m ≤ iw := ih w v ew ev iw iv hmw hiw hs' hmv hiv
        omega

/-- A successful sort rules out any `linkedTo` cycle. -/
theorem sort_ok_no_cycle {elems es : List Element} (hnd : (idsOf elems).Nodup)
    (h : topological_sort elems = .ok es) : ∀ c, ¬ OnCycle elems c := by
  rintro c ⟨k, hk⟩
  have hk' : (step elems c).bind (stepN elems k) = some c := by simpa [stepN] using hk
  rcases hw : step elems c with _ | w
  · rw [hw] at hk'; exact absurd hk' (by simp)
  · have hmc : ∃ ec, elemMap elems c = some ec := by
      unfold step at hw
      rcases hm : elemMap elems c with _ | ec
      · rw [hm] at hw; exact absurd hw (by simp)
      · exact ⟨ec, rfl⟩
    obtain ⟨ec, hmc⟩ := hmc
    have hcmem : ec ∈ es := sort_ok_mem hnd h ec (elemMap_spec hmc).2
    obtain ⟨ic, hic⟩ := List.mem_iff_getElem?.mp hcmem
    have := sort_stepN_le hnd h (k + 1) c c ec ec ic ic hmc hic hk hmc hic
    omega

/-- Strict filter-length decrease when the predicate is strengthened and
some member switches from accepted to rejected. -/
theorem length_filter_lt {α : Type} (p q : α → Bool) (himp : ∀ x, p x = true → q x = true) :
    ∀ (l : List α) (x0 : α), x0 ∈ l → q x0 = true → p x0 = false →
    (l.filter p).length < (l.filter q).length := by
  intro l
  induction l with
  | nil => intro x0 hx0 _ _; cases hx0
  | cons a rest ih =>
      intro x0 hx0 hq hp
      rcases List.mem_cons.mp hx0 with rfl | hx0
      · rw [List.filter_cons_of_neg (by simp [hp]), List.filter_cons_of_pos hq]
        refine Nat.lt_succ_of_le (List.Sublist.length_le ?_)
        exact List.monotone_filter_right rest (fun a ha => himp a ha)
      · cases hpa : p a
        · rw [List.filter_cons_of_neg (by simp [hpa])]
          cases hqa : q a
          · rw [List.filter_cons_of_neg (by simp [hqa])]
            exact ih x0 hx0 hq hp
          · rw [List.filter_cons_of_pos hqa]
            exact Nat.lt_succ_of_lt (ih x0 hx0 hq hp)
        · have hqa := himp a hpa
          rw [List.filter_cons_of_pos hpa, List.filter_cons_of_pos hqa]
          exact Nat.succ_lt_succ (ih x0 hx0 hq hp)

/-- The free-id count never exceeds the number of elements. -/
theorem freeCnt_le {elems : List Element} {st : SortState} :
    freeCnt elems st ≤ elems.length := by
  unfold freeCnt
  refine le_trans (List.length_filter_le _ _) ?_
  simp [idsOf]

/-- Temp-marking a free element id strictly decreases the free count
(this bounds the recursion depth of `visit`). -/
theorem freeCnt_lt {elems : List Element} {st : SortState} {id : String} {e : Element}
    (hm : elemMap elems id = some e) (h1 : id ∉ st.visited) (h2 : id ∉ st.temp_mark) :
    freeCnt elems { st with temp_mark := id :: st.temp_mark } < freeCnt elems st := by
  have hids : id ∈ idsOf elems := by
    obtain ⟨hid, hmem⟩ := elemMap_spec hm
    exact hid ▸ List.mem_map_of_mem _ hmem
  unfold freeCnt
  refine length_filter_lt _ _ ?_ (idsOf elems) id hids ?_ ?_
  · intro x hx
    simp only [decide_eq_true_eq] at hx ⊢
    exact ⟨hx.1, fun hmem => hx.2 (List.mem_cons_of_mem _ hmem)⟩
  · simp only [decide_eq_true_eq]
    exact ⟨h1, h2⟩
  · simp only [decide_eq_false_iff_not]
    intro hx
    exact hx.2 (List.mem_cons_self _ _)

/-- With fuel above the free count, every `visit` error is a
`Circular dependency` message. -/
theorem visit_error_shape {elems : List Element} :
    ∀ (fuel : Nat) (id : String) (st : SortState) (msg : String),
      freeCnt elems st < fuel → visit elems fuel id st = .error msg →
      ∃ c, msg = "Circular dependency: " ++ c := by
  intro fuel
  induction fuel with
  | zero => intro id st msg hf _; exact absurd hf (Nat.not_lt_zero _)
  | succ fuel ih =>
      intro id st msg hf h
      simp only [visit] at h
      by_cases h1 : id ∈ st.visited
      · rw [if_pos h1] at h; exact absurd h (by simp)
      · rw [if_neg h1] at h
        by_cases h2 : id ∈ st.temp_mark
        · rw [if_pos h2] at h
          have : "Circular dependency: " ++ id = msg := by simpa using h
          exact ⟨id, this.symm⟩
        · rw [if_neg h2] at h
          rcases hm : elemMap elems id with _ | e
          · simp only [hm] at h; exact absurd h (by simp)
          · simp only [hm] at h
            rcases hl : e.linked_to with _ | t
            · simp only [hl] at h; exact absurd h (by simp)
            · simp only [hl] at h
              rcases hrec : visit elems fuel t { st with temp_mark := id :: st.temp_mark }
                  with m | st2
              · rw [hrec] at h
                have hmm : m = msg := by simpa using h
                subst hmm
                have hlt := freeCnt_lt hm h1 h2
                exact ih t _ m (by omega) hrec
              · rw [hrec] at h
                simp only [] at h
                exact absurd h (by simp)

/-- When every `linkedTo` target exists, a successful `visit` restores
the grey set exactly. -/
theorem visit_ok_temp {elems : List Element} (hte : TargetsExist elems) :
    ∀ (fuel : Nat) (id : String) (st st' : SortState),
      (∃ e, elemMap elems id = some e) → visit elems fuel id st = .ok st' →
      st'.temp_mark = st.temp_mark := by
  intro fuel
  induction fuel with
  | zero => intro id st st' _ h; exact absurd h (by simp [visit])
  | succ fuel ih =>
      intro id st st' hid h
      simp only [visit] at h
      by_cases h1 : id ∈ st.visited
      · rw [if_pos h1] at h; cases h; rfl
      · rw [if_neg h1] at h
        by_cases h2 : id ∈ st.temp_mark
        · rw [if_pos h2] at h; exact absurd h (by simp)
        · rw [if_neg h2] at h
          obtain ⟨e, hm⟩ := hid
          simp only [hm] at h
          rcases hl : e.linked_to with _ | t
          · simp only [hl] at h; cases h
            exact List.erase_cons_head id st.temp_mark
          · simp only [hl] at h
            rcases hrec : visit elems fuel t { st with temp_mark := id :: st.temp_mark }
                with m | st2
            · rw [hrec] at h; exact absurd h (by simp)
            · rw [hrec] at h
              simp only [] at h
              cases h
              have hidt : ∃ e', elemMap elems t = some e' := by
                obtain ⟨heid, hemem⟩ := elemMap_spec hm
                exact elemMap_isSome_of_mem_ids (hte e hemem t hl)
              have htemp := ih t _ _ hidt hrec
              simp only [htemp]
              exact List.erase_cons_head id st.temp_mark

/-- Iterating `step` splits over addition. -/
theorem stepN_add {elems : List Element} :
    ∀ (m n : Nat) (i : String),
      stepN elems (m + n) i = (stepN elems m i).bind (stepN elems n) := by
  intro m
  induction m with
  | zero => intro n i; simp [stepN]
  | succ m ih =>
      intro n i
      have hq : m + 1 + n = (m + n) + 1 := by omega
      rw [hq]
      show (step elems i).bind (stepN elems (m + n)) = _
      rw [show stepN elems (m + 1) i = (step elems i).bind (stepN elems m) from rfl]
      rw [Option.bind_assoc]
      rcases step elems i with _ | j
      · simp
      · simp only [Option.some_bind]
        exact ih n j

/-- Every entry of a grey chain returns to the visited id after as many
hops as its depth plus one. -/
theorem chainUp_getElem {elems : List Element} :
    ∀ (l : List String) (id : String), ChainUp elems l id →
      ∀ (i : Nat) (a : String), l[i]? = some a → stepN elems (i + 1) a = some id := by
  intro l
  induction l with
  | nil => intro id _ i a hi; simp at hi
  | cons b rest ih =>
      intro id hch i a hi
      obtain ⟨hstep, hrest⟩ := hch
      cases i with
      | zero =>
          have hab : b = a := by simpa using hi
          subst hab
          simp [stepN, hstep]
      | succ i =>
          have hi' : rest[i]? = some a := by simpa using hi
          have h1 := ih b hrest i a hi'
          have h2 := @stepN_add elems (i + 1) 1 a
          rw [h1] at h2
          simp only [Option.some_bind] at h2
          have h3 : stepN elems 1 b = some id := by simp [stepN, hstep]
          rw [h3] at h2
          exact h2

/-- A grey id reached again lies on a `linkedTo` cycle. -/
theorem chainUp_cycle {elems : List Element} {l : List String} {id : String}
    (hch : ChainUp elems l id) (hmem : id ∈ l) : OnCycle elems id := by
  obtain ⟨i, hi⟩ := List.mem_iff_getElem?.mp hmem
  exact ⟨i, chainUp_getElem l id hch i id hi⟩

/-- When every `linkedTo` target exists and the grey set is a chain into
the visited id, a `visit` error names an id on a `linkedTo` cycle. -/
theorem visit_error_cycle {elems : List Element} (hte : TargetsExist elems) :
    ∀ (fuel : Nat) (id : String) (st : SortState) (msg : String),
      freeCnt elems st < fuel →
      (∃ e, elemMap elems id = some e) →
      ChainUp elems st.temp_mark id →
      visit elems fuel id st = .error msg →
      ∃ c, msg = "Circular dependency: " ++ c ∧ OnCycle elems c := by
  intro fuel
  induction fuel with
  | zero => intro id st msg hf _ _ _; exact absurd hf (Nat.not_lt_zero _)
  | succ fuel ih =>
      intro id st msg hf hid hch h
      simp only [visit] at h
      by_cases h1 : id ∈ st.visited
      · rw [if_pos h1] at h; exact absurd h (by simp)
      · rw [if_neg h1] at h
        by_cases h2 : id ∈ st.temp_mark
        · rw [if_pos h2] at h
          have hmm : "Circular dependency: " ++ id = msg := by simpa using h
          exact ⟨id, hmm.symm, chainUp_cycle hch h2⟩
        · rw [if_neg h2] at h
          obtain ⟨e, hm⟩ := hid
          simp only [hm] at h
          rcases hl : e.linked_to with _ | t
          · simp only [hl] at h; exact absurd h (by simp)
          · simp only [hl] at h
            rcases hrec : visit elems fuel t { st with temp_mark := id :: st.temp_mark }
                with m | st2
            · rw [hrec] at h
              have hmm : m = msg := by simpa using h
              subst hmm
              have hlt := freeCnt_lt hm h1 h2
              refine ih t _ m (by omega) ?_ ?_ hrec
              · obtain ⟨heid, hemem⟩ := elemMap_spec hm
                exact elemMap_isSome_of_mem_ids (hte e hemem t hl)
              · exact ⟨by simp [step, hm, hl], hch⟩
            · rw [hrec] at h
              simp only [] at h
              exact absurd h (by simp)

/-- Every error of the sort loop is a `Circular dependency` message. -/
theorem sortLoop_error_shape {elems : List Element} :
    ∀ (l : List Element) (st : SortState) (msg : String),
      sortLoop elems l st = .error msg →
      ∃ c, msg = "Circular dependency: " ++ c := by
  intro l
  induction l with
  | nil => intro st msg h; exact absurd h (by simp [sortLoop])
  | cons e rest ih =>
      intro st msg h
      simp only [sortLoop] at h
      by_cases h1 : e.id ∈ st.visited
      · rw [if_pos h1] at h
        simp only [] at h
        exact ih _ _ h
      · rw [if_neg h1] at h
        rcases hv : visit elems (elems.length + 1) e.id st with m | st1
        · rw [hv] at h
          have hmm : m = msg := by simpa using h
          subst hmm
          exact visit_error_shape (elems.length + 1) e.id st m
            (lt_of_le_of_lt freeCnt_le (Nat.lt_succ_self _)) hv
        · rw [hv] at h
          simp only [] at h
          exact ih _ _ h

/-- Under existing targets, a sort-loop error (from an empty grey set,
over template elements) names an id on a `linkedTo` cycle. -/
theorem sortLoop_error_cycle {elems : List Element} (hte : TargetsExist elems) :
    ∀ (l : List Element) (st : SortState) (msg : String),
      (∀ e ∈ l, e ∈ elems) → st.temp_mark = [] →
      sortLoop elems l st = .error msg →
      ∃ c, msg = "Circular dependency: " ++ c ∧ OnCycle elems c := by
  intro l
  induction l with
  | nil => intro st msg _ _ h; exact absurd h (by simp [sortLoop])
  | cons e rest ih =>
      intro st msg hsub htemp h
      simp only [sortLoop] at h
      have hid : ∃ e', elemMap elems e.id = some e' :=
        elemMap_isSome_of_mem_ids
          (List.mem_map_of_mem _ (hsub e (List.mem_cons_self _ _)))
      by_cases h1 : e.id ∈ st.visited
      · rw [if_pos h1] at h
        simp only [] at h
        exact ih _ _ (fun x hx => hsub x (List.mem_cons_of_mem _ hx)) htemp h
      · rw [if_neg h1] at h
        rcases hv : visit elems (elems.length + 1) e.id st with m | st1
        · rw [hv] at h
          have hmm : m = msg := by simpa using h
          subst hmm
          refine visit_error_cycle hte (elems.length + 1) e.id st m
            (lt_of_le_of_lt freeCnt_le (Nat.lt_succ_self _)) hid ?_ hv
          rw [htemp]
          trivial
        · rw [hv] at h
          simp only [] at h
          have htemp1 : st1.temp_mark = [] := by
            rw [visit_ok_temp hte (elems.length + 1) e.id st st1 hid hv, htemp]
          exact ih _ _ (fun x hx => hsub x (List.mem_cons_of_mem _ hx)) htemp1 h

/-- Every `topological_sort` error is a `Circular dependency` message. -/
theorem sort_error_shape {elems : List Element} {msg : String}
    (h : topological_sort elems = .error msg) :
    ∃ c, msg = "Circular dependency: " ++ c := by
  unfold topological_sort at h
  rcases hs : sortLoop elems elems ⟨[], [], []⟩ with m | stf
  · rw [hs] at h
    have hmm : m = msg := by simpa [Except.map] using h
    exact hmm ▸ sortLoop_error_shape elems _ m hs
  · rw [hs] at h
    exact absurd h (by simp [Except.map])

/-- When every `linkedTo` target exists, a `topological_sort` error
names an id on a `linkedTo` cycle. -/
theorem sort_error_cycle {elems : List Element} {msg : String}
    (hte : TargetsExist elems) (h : topological_sort elems = .error msg) :
    ∃ c, msg = "Circular dependency: " ++ c ∧ OnCycle elems c := by
  unfold topological_sort at h
  rcases hs : sortLoop elems elems ⟨[], [], []⟩ with m | stf
  · rw [hs] at h
    have hmm : m = msg := by simpa [Except.map] using h
    exact hmm ▸ sortLoop_error_cycle hte elems _ m (fun e he => he) rfl hs
  · rw [hs] at h
    exact absurd h (by simp [Except.map])

/-! ## Claim C7 — cycle detection -/

/-- C7 counterexample: in a template that does contain a cycle among
existing ids (`C ↔ D`) but whose first two elements repeat a reference to
the missing id `ghost`, the sort fails with `Circular dependency: ghost`
— the named id is not an element of the template, let alone of the
cycle — while still emitting zero draw calls.  So the error does not
always name an element of the cycle. -/
theorem c7_counterexample :
    topological_sort ghostCycleElems = .error "Circular dependency: ghost"
    ∧ OnCycle ghostCycleElems "C"
    ∧ "ghost" ∉ idsOf ghostCycleElems
    ∧ ¬ OnCycle ghostCycleElems "ghost"
    ∧ render constMeasure okQr (tmplOf ghostCycleElems) (Json.obj [])
        = ([], some "Circular dependency: ghost") := by
  refine ⟨by with_unfolding_all rfl, ⟨1, by rfl⟩, by decide, ?_, by with_unfolding_all rfl⟩
  rintro ⟨k, hk⟩
  rw [show stepN ghostCycleElems (k + 1) "ghost"
        = (step ghostCycleElems "ghost").bind (stepN ghostCycleElems k) from rfl,
      show step ghostCycleElems "ghost" = none from rfl] at hk
  exact Option.noConfusion hk

/-- C7 (amended): a template with distinct ids whose linkage graph
contains a cycle makes `topological_sort` fail with a
`Circular dependency: c` error before anything is rendered, so `render`
emits zero draw calls and returns that error; the named id `c` is
guaranteed to lie on a cycle provided every `linkedTo` target exists
(otherwise it may instead be a repeatedly referenced missing id, see the
counterexample). -/
theorem c7_cycle_detection (t : DeepPrintTemplate)
    (hnd : (idsOf t.canvas.elements).Nodup)
    (hcyc : ∃ c0, OnCycle t.canvas.elements c0) :
    ∃ c, topological_sort t.canvas.elements = .error ("Circular dependency: " ++ c)
      ∧ (∀ (measure : MeasureFn) (qr : QrOracle) (data : Json),
          render measure qr t data = ([], some ("Circular dependency: " ++ c)))
      ∧ (TargetsExist t.canvas.elements → OnCycle t.canvas.elements c) := by
  rcases hs : topological_sort t.canvas.elements with msg | es
  · by_cases hte : TargetsExist t.canvas.elements
    · obtain ⟨c, hmsg, hoc⟩ := sort_error_cycle hte hs
      subst hmsg
      exact ⟨c, rfl, fun measure qr data => by simp [render, hs], fun _ => hoc⟩
    · obtain ⟨c, hmsg⟩ := sort_error_shape hs
      subst hmsg
      exact ⟨c, rfl, fun measure qr data => by simp [render, hs], fun h => absurd h hte⟩
  · exfalso
    obtain ⟨c0, hc0⟩ := hcyc
    exact sort_ok_no_cycle hnd hs c0 hc0

/-- C7 witness: the amended theorem at the pure two-element cycle. -/
theorem c7_witness :
    ((idsOf pureCycleElems).Nodup ∧ OnCycle pureCycleElems "C")
    ∧ ∃ c, topological_sort pureCycleElems = .error ("Circular dependency: " ++ c)
        ∧ (∀ (measure : MeasureFn) (qr : QrOracle) (data : Json),
            render measure qr (tmplOf pureCycleElems) data
              = ([], some ("Circular dependency: " ++ c)))
        ∧ (TargetsExist pureCycleElems → OnCycle pureCycleElems c) := by
  refine ⟨⟨by decide, ⟨1, by rfl⟩⟩, ?_⟩
  exact c7_cycle_detection (tmplOf pureCycleElems) (by decide) ⟨"C", 1, by rfl⟩

/-! ## Properties of the render loop -/

/-- A successful `render_element` pushes `(id, actual_y, measured
height)` onto the layout cache. -/
theorem render_element_ok_cache {measure : MeasureFn} {qr : QrOracle} {data : Json}
    {gs : Option GlobalStyles} {e : Element} {st st' : RState}
    (h : render_element measure qr data gs e st = .ok st') :
    ∃ hgt, st'.cache = (e.id, (calculate_y e st.cache).1, hgt) :: st.cache := by
  unfold render_element at h
  split at h <;> (simp only [] at h; split at h) <;>
    first
      | (cases h; exact ⟨_, rfl⟩)
      | exact absurd h (by simp)

/-- Cache entries survive the rest of the render loop (possibly
shadowed by a fresher value for the same id). -/
theorem renderElems_cache_mono {measure : MeasureFn} {qr : QrOracle} {data : Json}
    {gs : Option GlobalStyles} :
    ∀ (l : List Element) (st st' : RState) (err : Option String),
      renderElems measure qr data gs l st = (st', err) →
      ∀ x v, lookupCache st.cache x = some v →
      ∃ v', lookupCache st'.cache x = some v' := by
  intro l
  induction l with
  | nil =>
      intro st st' err h x v hv
      simp only [renderElems] at h
      cases h
      exact ⟨v, hv⟩
  | cons e rest ih =>
      intro st st' err h x v hv
      simp only [renderElems] at h
      rcases hre : render_element measure qr data gs e st with m | st1
      · rw [hre] at h
        simp only [] at h
        cases h
        exact ⟨v, hv⟩
      · rw [hre] at h
        simp only [] at h
        obtain ⟨hgt, hc⟩ := render_element_ok_cache hre
        have hv1 : ∃ v1, lookupCache st1.cache x = some v1 := by
          rw [hc]
          unfold lookupCache
          cases hx : x == e.id
          · simp only [List.lookup, hx]
            exact ⟨v, hv⟩
          · simp only [List.lookup, hx]
            exact ⟨_, rfl⟩
        obtain ⟨v1, hv1⟩ := hv1
        exact ih st1 st' err h x v1 hv1

/-- After an error-free run over a list of elements, every processed
element's id is in the cache. -/
theorem renderElems_cache_domain {measure : MeasureFn} {qr : QrOracle} {data : Json}
    {gs : Option GlobalStyles} :
    ∀ (l : List Element) (st st' : RState),
      renderElems measure qr data gs l st = (st', none) →
      ∀ e ∈ l, ∃ v, lookupCache st'.cache e.id = some v := by
  intro l
  induction l with
  | nil => intro st st' _ e he; exact absurd he (List.not_mem_nil e)
  | cons e0 rest ih =>
      intro st st' h e he
      simp only [renderElems] at h
      rcases hre : render_element measure qr data gs e0 st with m | st1
      · rw [hre] at h
        simp only [] at h
        have := congrArg Prod.snd h
        simp at this
      · rw [hre] at h
        simp only [] at h
        rcases List.mem_cons.mp he with rfl | he
        · obtain ⟨hgt, hc⟩ := render_element_ok_cache hre
          have hself : lookupCache st1.cache e.id
              = some ((calculate_y e st.cache).1, hgt) := by
            rw [hc]
            unfold lookupCache
            exact List.lookup_cons_self
          exact renderElems_cache_mono rest st1 st' none h e.id _ hself
        · exact ih st1 st' h e he

/-! ## Claim C3 — linked ordering and anchor arithmetic -/

/-- C3: with distinct ids and a successful topological sort, every
element `a` linked to an existing id `b` is drawn after some element
bearing id `b`; when the render loop reaches `a` without a prior error,
the cache holds `b ↦ (y_b, h_b)` and `a`'s resolved top is literally
`y_b + h_b + a.y`; rendering `a` inserts `(actual_y, measured height)`
into the cache under `a.id`; and an element without a resolvable anchor
(no `linkedTo`, or a target absent from the cache) is placed at its own
`y`. -/
theorem c3_linked_anchor
    (elems es : List Element) (a : Element) (b : String)
    (hnd : (idsOf elems).Nodup)
    (hsort : topological_sort elems = .ok es)
    (ha : a ∈ elems) (hlink : a.linked_to = some b) (hb : b ∈ idsOf elems) :
    (∃ (i j : Nat), j < i ∧ es[i]? = some a ∧ ∃ eb : Element, es[j]? = some eb ∧ eb.id = b)
    ∧ (∀ (measure : MeasureFn) (qr : QrOracle) (data : Json) (gs : Option GlobalStyles)
        (i : Nat) (st : RState),
        es[i]? = some a →
        renderElems measure qr data gs (es.take i) ⟨[], []⟩ = (st, none) →
        ∃ yb hb2, lookupCache st.cache b = some (yb, hb2)
          ∧ (calculate_y a st.cache).1 = yb + hb2 + a.y)
    ∧ (∀ (measure : MeasureFn) (qr : QrOracle) (data : Json) (gs : Option GlobalStyles)
        (st st' : RState),
        render_element measure qr data gs a st = .ok st' →
        ∃ hgt, st'.cache = (a.id, (calculate_y a st.cache).1, hgt) :: st.cache)
    ∧ (∀ (e : Element) (cache : List (String × ℚ × ℚ)),
        e.linked_to = none → (calculate_y e cache).1 = e.y)
    ∧ (∀ (e : Element) (cache : List (String × ℚ × ℚ)) (t : String),
        e.linked_to = some t → lookupCache cache t = none →
        (calculate_y e cache).1 = e.y) := by
  refine ⟨?_, ?_, ?_, ?_, ?_⟩
  · have hmem := sort_ok_mem hnd hsort a ha
    obtain ⟨i, hi⟩ := List.mem_iff_getElem?.mp hmem
    obtain ⟨j, hj, eb, hebj, hebid⟩ := sort_ok_closed hsort i a hi b hlink hb
    exact ⟨i, j, hj, hi, eb, hebj, hebid⟩
  · intro measure qr data gs i st hi hrun
    obtain ⟨j, hj, eb, hebj, hebid⟩ := sort_ok_closed hsort i a hi b hlink hb
    have hebtake : eb ∈ es.take i := by
      rw [List.mem_iff_getElem?]
      exact ⟨j, by rw [List.getElem?_take_of_lt hj]; exact hebj⟩
    obtain ⟨v, hv⟩ := renderElems_cache_domain (es.take i) ⟨[], []⟩ st hrun eb hebtake
    rw [hebid] at hv
    refine ⟨v.1, v.2, hv, ?_⟩
    simp [calculate_y, hlink, lookupCache] at hv ⊢
    rw [hv]
  · intro measure qr data gs st st' h
    exact render_element_ok_cache h
  · intro e cache he
    simp [calculate_y, he]
  · intro e cache t he hl
    simp [calculate_y, he, hl]

/-- C3 witness: the anchor theorem at the concrete two-element fixture —
`cA` (linked to `cB`, own gap 7) resolves to `10 + 2 + 7`. -/
theorem c3_witness :
    (∃ (i j : Nat), j < i ∧ [cB, cA][i]? = some cA
      ∧ ∃ eb : Element, [cB, cA][j]? = some eb ∧ eb.id = "b")
    ∧ (∃ yb hb2, lookupCache [("b", 10, 2)] "b" = some (yb, hb2)
        ∧ (calculate_y cA [("b", 10, 2)]).1 = yb + hb2 + cA.y) := by
  have h := c3_linked_anchor [cB, cA] [cB, cA] cA "b" (by decide)
    (by with_unfolding_all rfl) (List.mem_cons_of_mem _ (List.mem_cons_self _ _))
    rfl (by decide)
  refine ⟨h.1, ?_⟩
  have h2 := h.2.1 constMeasure okQr (Json.obj []) none 1
    ⟨[("b", 10, 2)], [DrawCall.line 0 10 100 12 ⟨.stroke, Color.black, 283/100, false, none⟩]⟩
    (by rfl) (by with_unfolding_all rfl)
  exact h2

end DeepPrint
